import Mathlib

/-!
Shallow embedding of the task data-dependency management code in
`dart-impl/tasking/src/internal/dart_tasking_datadeps.c`, together with
theorems settling specification claims about it.

Pointers become identifiers (`Nat`), intrusive singly-linked lists become
`List`, the atomic counters (`int32_t` in the source) become `Int`, and the
calls into the transport collaborator become an observable message trace.
All functions are sequentialized: the mutexes in the source only serialize
the very critical sections modelled here.
-/

namespace Datadeps

/-- Dependency types (`dart_dep_type_t`, values `DART_DEP_*`). -/
inductive DepType where
  | inDep | outDep | inoutDep | directDep | copyinDep | delayedInDep | ignoreDep
deriving DecidableEq

/-- Task states (`dart_task_state_t`, values `DART_TASK_*`). -/
inductive TaskState where
  | created | queued | running | finished | cancelled
deriving DecidableEq

/-- A global pointer `dart_gptr_t`: the `addr`/`offset` union is one numeric
field `addrOrOffs`. -/
structure Gptr where
  unitid : Nat
  segid : Nat
  teamid : Nat
  flags : Nat
  addrOrOffs : Nat
deriving DecidableEq

/-- `DART_GPTR_NULL`. -/
def gptrNull : Gptr := ⟨0, 0, 0, 0, 0⟩

/-- A task dependency `dart_task_dep_t`. The source stores `gptr` and the
`copyin` descriptor in a union; both members are carried here. -/
structure TaskDep where
  type : DepType
  gptr : Gptr
  phase : Int
  copyinGptr : Gptr := gptrNull
  copyinDest : Nat := 0
deriving DecidableEq

/-- `IS_OUT_DEP`: the dependency writes the location. -/
def isOutDep (d : TaskDep) : Bool :=
  d.type == DepType.outDep || d.type == DepType.inoutDep

/-- `DEP_ADDR`: the absolute address stored in the dependency's gptr. -/
def depAddr (d : TaskDep) : Nat := d.gptr.addrOrOffs

/-- `DEP_ADDR_EQ`: the source compares only the absolute addresses of the two
dependencies; unit, segment and team fields do not take part. -/
def depAddrEq (d1 d2 : TaskDep) : Bool := depAddr d1 == depAddr d2

/-- `DART_DEPHASH_SIZE`. -/
def DART_DEPHASH_SIZE : Nat := 1023

/-- `hash_gptr`: `hash = offset >> 2`, XOR the segment ID shifted by 16 (a
32-bit computation), XOR the unit ID shifted by 32 (64-bit), then modulo the
table size.  The C shifts are modelled with multiplication and explicit
reduction at the respective machine widths. -/
def hashGptr (g : Gptr) : Nat :=
  let segid := g.segid % 2 ^ 32
  let unitid := g.unitid % 2 ^ 64
  let hash := (g.addrOrOffs % 2 ^ 64) / 4
  let hash := Nat.xor hash ((segid * 2 ^ 16) % 2 ^ 32)
  let hash := Nat.xor hash ((unitid * 2 ^ 32) % 2 ^ 64)
  hash % DART_DEPHASH_SIZE

/-- `dart_dephash_elem_t` without the intrusive `next` pointer: bucket and
free-list links are modelled by `List`.  `task` is the `taskref` union (a
local task identifier, or an opaque remote task reference). -/
structure DepElem where
  taskdep : TaskDep
  task : Nat
  origin : Nat
deriving DecidableEq

/-- A recycled element is zeroed by `dephash_recycle_elem` (`memset`); the
all-zero record has dependency type `DART_DEP_IN` (value 0). -/
def zeroDepElem : DepElem :=
  ⟨⟨DepType.inDep, gptrNull, 0, gptrNull, 0⟩, 0, 0⟩

/-- The slice of `dart_task_t` that the dependency code reads and writes:
counters `unresolved_deps` / `unresolved_remote_deps`, the successor lists,
and the lazily allocated per-parent dependency hash table `local_deps`. -/
structure DartTask where
  state : TaskState
  phase : Int
  unresolvedDeps : Int
  unresolvedRemoteDeps : Int
  successor : List Nat
  remoteSuccessor : List DepElem
  localDeps : Option (Nat → List DepElem)

/-- Modelled from the spec: `IS_ACTIVE_TASK` (declared outside these sources)
holds for a task that has not yet finished and was not cancelled. -/
def isActiveTask (t : DartTask) : Bool :=
  t.state == TaskState.created || t.state == TaskState.queued ||
    t.state == TaskState.running

/-- Pointwise update of the task map at one task identifier. -/
def updT (m : Nat → DartTask) (i : Nat) (t : DartTask) : Nat → DartTask :=
  fun j => if j = i then t else m j

/-- Calls into the transport collaborator that the embedding records:
`dart_tasking_remote_release` and `dart_tasking_remote_direct_taskdep`. -/
inductive Msg where
  | remoteRelease (target : Nat) (taskRef : Nat) (dep : TaskDep)
  | directTaskdep (target : Nat) (localTask : Nat) (taskRef : Nat)
deriving DecidableEq

/-- The mutable runtime state threaded through the embedded functions:
the task map, the relevant parent's (or, for the deferred-remote handler, the
current task's) dependency hash table, the `remote_blocked_tasks` list, the
trace of transport calls, the element free list, the identifiers handed to
`dart__tasking__enqueue_runnable`, the number of calls into
`dart_tasking_copyin_create_task`, and a flag recording that a fatal
`DART_ASSERT` fired. -/
structure RtState where
  tasks : Nat → DartTask
  localDeps : Option (Nat → List DepElem)
  remoteBlocked : List Nat
  msgs : List Msg
  freelist : List DepElem
  enqueued : List Nat
  createCalls : Nat
  aborted : Bool

/-- Messages emitted between two states (all embedded functions only append
to the trace). -/
def sentMsgs (s s' : RtState) : List Msg := s'.msgs.drop s.msgs.length

/-! ## Deferred remote dependency handling -/

/-- The bucket walk in `dart_tasking_datadeps_handle_defered_remote`
(source lines 309-371).  Returns `(candidate, direct_dep_candidate)`.
The source's additional test `local_task != candidate` always holds at that
point, because `candidate` is still `NULL` whenever the test runs (the loop
breaks immediately after setting it), so it is not modelled. -/
def deferredRemoteScan (tasks : Nat → DartTask) (rdep : DepElem) :
    List DepElem → Option Nat → Option Nat × Option Nat
  | [], ddc => (none, ddc)
  | e :: rest, ddc =>
    if isOutDep e.taskdep && depAddrEq e.taskdep rdep.taskdep then
      if !isActiveTask (tasks e.task) then
        (none, ddc)
      else if e.taskdep.phase < rdep.taskdep.phase then
        (some e.task, ddc)
      else
        deferredRemoteScan tasks rdep rest
          (match ddc with
           | none => some e.task
           | some d =>
             if (tasks d).phase > e.taskdep.phase then some e.task else some d)
    else
      deferredRemoteScan tasks rdep rest ddc

/-- The scan of one pending record against the current task's table inside
`dart_tasking_datadeps_handle_defered_remote`; when the current task has no
table there are no candidates. -/
def scanOf (s : RtState) (rdep : DepElem) : Option Nat × Option Nat :=
  match s.localDeps with
  | none => (none, none)
  | some tbl =>
    deferredRemoteScan s.tasks rdep (tbl (hashGptr rdep.taskdep.gptr)) none

/-- The direct-dependency block of
`dart_tasking_datadeps_handle_defered_remote` (source lines 373-395): if a
direct-dependency candidate was found, send a direct task dependency to the
origin, increment its remote counter (`DART_FETCH_AND_INC32`) and, on the
0 to 1 transition, prepend it to `remote_blocked_tasks`. -/
def applyDirectDepCandidate (s : RtState) (rdep : DepElem) :
    Option Nat → RtState
  | none => s
  | some d =>
    let old := (s.tasks d).unresolvedRemoteDeps
    { s with
      msgs := s.msgs ++ [Msg.directTaskdep rdep.origin d rdep.task],
      tasks := updT s.tasks d { s.tasks d with unresolvedRemoteDeps := old + 1 },
      remoteBlocked := if old = 0 then d :: s.remoteBlocked else s.remoteBlocked }

/-- Handling of one pending record inside
`dart_tasking_datadeps_handle_defered_remote` (source lines 300-412):
scan the bucket, apply the direct-dependency block, then either push the
record onto the satisfier's `remote_successor` or send a release and recycle
the record. -/
def handleOneRemoteDep (s : RtState) (rdep : DepElem) : RtState :=
  let s1 := applyDirectDepCandidate s rdep (scanOf s rdep).2
  match (scanOf s rdep).1 with
  | some c =>
    { s1 with
      tasks := updT s1.tasks c
        { s1.tasks c with remoteSuccessor := rdep :: (s1.tasks c).remoteSuccessor } }
  | none =>
    { s1 with
      msgs := s1.msgs ++ [Msg.remoteRelease rdep.origin rdep.task rdep.taskdep],
      freelist := zeroDepElem :: s1.freelist }

/-- `dart_tasking_datadeps_handle_defered_remote`: process the pending records
in list order.  The global `unhandled_remote_deps` list lives outside the
state modelled here, so the pending records are passed explicitly. -/
def handleDeferredRemote (s : RtState) (pending : List DepElem) : RtState :=
  pending.foldl handleOneRemoteDep s

/-- Stated from the words of amended claim C2 (a specification-side
definition, to be compared with the scan translated from the source): the
satisfier is the first record in the bucket holding an `OUT`/`INOUT`
dependency on the same address whose task is active and whose phase is
strictly earlier than the remote record's; the search gives up at the first
such matching record whose task is no longer active. -/
def satisfierSpec (tasks : Nat → DartTask) (rdep : DepElem) :
    List DepElem → Option Nat
  | [] => none
  | e :: rest =>
    if isOutDep e.taskdep && depAddrEq e.taskdep rdep.taskdep then
      if !isActiveTask (tasks e.task) then none
      else if e.taskdep.phase < rdep.taskdep.phase then some e.task
      else satisfierSpec tasks rdep rest
    else satisfierSpec tasks rdep rest

/-- The satisfier of a remote record against a state, per `satisfierSpec`. -/
def satisfierSpecOf (s : RtState) (rdep : DepElem) : Option Nat :=
  match s.localDeps with
  | none => none
  | some tbl => satisfierSpec s.tasks rdep (tbl (hashGptr rdep.taskdep.gptr))

/-- A record in the bucket matches a remote dependency when it holds an
`OUT`/`INOUT` dependency on the same absolute address. -/
def remoteMatch (rdep e : DepElem) : Bool :=
  isOutDep e.taskdep && depAddrEq e.taskdep rdep.taskdep

/-- Exactly one of three propositions holds. -/
def exactlyOneOfThree (a b c : Prop) : Prop :=
  (a ∧ ¬ b ∧ ¬ c) ∨ (¬ a ∧ b ∧ ¬ c) ∨ (¬ a ∧ ¬ b ∧ c)

/-! ## Local matching -/

/-- The bucket walk of `dart_tasking_datadeps_match_local_datadep` (source
lines 539-597).  Returns the updated bucket (an `IN` record of the task
itself may be upgraded to `INOUT` in place) and the updated task map. -/
def matchLocalScan (dep : TaskDep) (taskId : Nat) :
    List DepElem → (Nat → DartTask) → List DepElem × (Nat → DartTask)
  | [], tasks => ([], tasks)
  | e :: rest, tasks =>
    if depAddrEq e.taskdep dep then
      if e.task = taskId then
        let e' :=
          if e.taskdep.type == DepType.inDep && isOutDep dep then
            { e with taskdep := { e.taskdep with type := DepType.inoutDep } }
          else e
        (e' :: rest, tasks)
      else
        let tasks1 :=
          if isOutDep dep || (dep.type == DepType.inDep && isOutDep e.taskdep) then
            if isActiveTask (tasks e.task) then
              if (tasks e.task).successor.contains taskId then tasks
              else
                updT (updT tasks taskId
                        { tasks taskId with
                          unresolvedDeps := (tasks taskId).unresolvedDeps + 1 })
                  e.task
                  { tasks e.task with successor := taskId :: (tasks e.task).successor }
            else tasks
          else tasks
        if isOutDep e.taskdep then (e :: rest, tasks1)
        else
          let r := matchLocalScan dep taskId rest tasks1
          (e :: r.1, r.2)
    else
      let r := matchLocalScan dep taskId rest tasks
      (e :: r.1, r.2)

/-- `dart_tasking_datadeps_match_local_datadep` (source lines 524-605):
shortcut when the parent has no table yet, otherwise walk the bucket of the
dependency's hash slot.  The state's `localDeps` field holds the parent's
table. -/
def matchLocalDatadep (dep : TaskDep) (taskId : Nat) (s : RtState) : RtState :=
  match s.localDeps with
  | none => s
  | some tbl =>
    let slot := hashGptr dep.gptr
    let r := matchLocalScan dep taskId (tbl slot) s.tasks
    { s with
      tasks := r.2,
      localDeps := some (fun sl => if sl = slot then r.1 else tbl sl) }

/-- Eligibility of a bucket record in the local matcher: the addresses agree,
the new dependency is an output or the record is an output matched by an
input, and the record's task is still active. -/
def localElig (dep : TaskDep) (tasks : Nat → DartTask) (e : DepElem) : Bool :=
  depAddrEq e.taskdep dep &&
    (isOutDep dep || (dep.type == DepType.inDep && isOutDep e.taskdep)) &&
    isActiveTask (tasks e.task)

/-! ## Delayed local matching -/

/-- The bucket walk of `dart_tasking_datadeps_match_delayed_local_datadep`
(source lines 633-706), carrying the most recent next-writer seen among the
skipped later-phase records.  Returns the updated bucket (the new record may
be inserted right before the matched writer), the updated task map, and a
flag recording a fatal `DART_ASSERT_MSG` failure (a record of the task
itself, or an inactive next-writer). -/
def matchDelayedScan (myid : Nat) (dep : TaskDep) (taskId : Nat)
    (tasks : Nat → DartTask) :
    List DepElem → Option Nat → List DepElem × (Nat → DartTask) × Bool
  | [], _ => ([], tasks, false)
  | e :: rest, nextOut =>
    if e.taskdep.phase > dep.phase then
      let nextOut' :=
        if depAddrEq e.taskdep dep && isOutDep e.taskdep then some e.task
        else nextOut
      let r := matchDelayedScan myid dep taskId tasks rest nextOut'
      (e :: r.1, r.2.1, r.2.2)
    else
      if depAddrEq e.taskdep dep then
        if e.task = taskId then
          (e :: rest, tasks, true)
        else if isOutDep e.taskdep then
          let tasks1 :=
            if isActiveTask (tasks e.task) then
              updT (updT tasks taskId
                      { tasks taskId with
                        unresolvedDeps := (tasks taskId).unresolvedDeps + 1 })
                e.task
                { tasks e.task with successor := taskId :: (tasks e.task).successor }
            else tasks
          match nextOut with
          | some n =>
            if !isActiveTask (tasks1 n) then
              (e :: rest, tasks1, true)
            else
              let t1 := updT tasks1 n
                { tasks1 n with unresolvedDeps := (tasks1 n).unresolvedDeps + 1 }
              let t2 := updT t1 taskId
                { t1 taskId with successor := n :: (t1 taskId).successor }
              (e :: rest, t2, false)
          | none =>
            ((⟨dep, taskId, myid⟩ : DepElem) :: e :: rest, tasks1, false)
        else
          let r := matchDelayedScan myid dep taskId tasks rest nextOut
          (e :: r.1, r.2.1, r.2.2)
      else
        let r := matchDelayedScan myid dep taskId tasks rest nextOut
        (e :: r.1, r.2.1, r.2.2)

/-- `dart_tasking_datadeps_match_delayed_local_datadep`
(source lines 614-715). -/
def matchDelayedLocalDatadep (myid : Nat) (dep : TaskDep) (taskId : Nat)
    (s : RtState) : RtState :=
  match s.localDeps with
  | none => s
  | some tbl =>
    let slot := hashGptr dep.gptr
    let r := matchDelayedScan myid dep taskId s.tasks (tbl slot) none
    { s with
      tasks := r.2.1,
      localDeps := some (fun sl => if sl = slot then r.1 else tbl sl),
      aborted := s.aborted || r.2.2 }

/-- The accumulator of the delayed scan restricted to a prefix: the most
recent record with a later phase, the same address and an output type. -/
def nextOutFold (dep : TaskDep) (l : List DepElem) (acc : Option Nat) :
    Option Nat :=
  l.foldl
    (fun a x =>
      if x.taskdep.phase > dep.phase && depAddrEq x.taskdep dep &&
          isOutDep x.taskdep then
        some x.task
      else a)
    acc

/-- A record that the delayed scan walks over without matching, aborting or
returning: either it was created in a later phase, or it does not carry the
same address, or it carries the same address with an earlier-or-equal phase
but is not an output dependency and belongs to another task. -/
def delayedSkip (dep : TaskDep) (taskId : Nat) (x : DepElem) : Prop :=
  x.taskdep.phase > dep.phase ∨
    depAddrEq x.taskdep dep = false ∨
    (depAddrEq x.taskdep dep = true ∧ isOutDep x.taskdep = false ∧
      x.task ≠ taskId ∧ ¬ x.taskdep.phase > dep.phase)

/-! ## Copy-in handling -/

/-- Modelled from the spec: the reserved segment ID used for local copy-in
destinations (`DART_TASKING_DATADEPS_LOCAL_SEGID`, declared outside these
sources); its concrete value is irrelevant to the theorems below. -/
def localCopyinSegid : Nat := 1

/-- The bucket walk of `dart_tasking_datadeps_handle_copyin` (source lines
466-498): look for a record on the destination address; stop at the first one
with an earlier phase (buckets are phase-descending); match the first
`OUT`/`INOUT` record in the very same phase. -/
def copyinScan (dep : TaskDep) : List DepElem → Option Nat
  | [] => none
  | e :: rest =>
    if e.taskdep.gptr.addrOrOffs == dep.copyinDest then
      if e.taskdep.phase < dep.phase then none
      else if isOutDep e.taskdep && dep.phase == e.taskdep.phase then some e.task
      else copyinScan dep rest
    else copyinScan dep rest

/-- `dephash_add_local` (source lines 235-251) together with
`dephash_require_alloc`: push a freshly allocated record at the head of the
bucket of the parent table, allocating the table first when absent. -/
def dephashAddLocal (myid : Nat) (dep : TaskDep) (taskId : Nat)
    (tbl : Option (Nat → List DepElem)) : Nat → List DepElem :=
  let t := match tbl with | none => fun _ => [] | some f => f
  let slot := hashGptr dep.gptr
  fun sl => if sl = slot then (⟨dep, taskId, myid⟩ : DepElem) :: t sl else t sl

/-- The found-branch of `dart_tasking_datadeps_handle_copyin` (source lines
476-495): increment the task's local counter, prepend it to the copying
task's successors, and register an `IN` dependency on the destination in the
hash table. -/
def copyinAttach (myid : Nat) (dep : TaskDep) (destGptr : Gptr)
    (taskId elemTask : Nat) (s : RtState) : RtState :=
  let s1 := { s with
    tasks := updT s.tasks taskId
      { s.tasks taskId with
        unresolvedDeps := (s.tasks taskId).unresolvedDeps + 1 } }
  let s2 := { s1 with
    tasks := updT s1.tasks elemTask
      { s1.tasks elemTask with successor := taskId :: (s1.tasks elemTask).successor } }
  let inDep : TaskDep := { type := DepType.inDep, gptr := destGptr, phase := dep.phase }
  { s2 with localDeps := some (dephashAddLocal myid inDep taskId s2.localDeps) }

/-- `dart_tasking_datadeps_handle_copyin` (source lines 444-516).  The
external prefetch-task creation (`dart_tasking_copyin_create_task`, outside
these sources) is passed as an opaque state transformer `create`, and each
invocation is counted in `createCalls`.  The `do`/`while (0 == iter++)` loop
body runs at most twice, so it is unrolled here; on the second round the
guarded assertion `DART_ASSERT_MSG(iter, ...)` is evaluated with `iter = 1`,
a condition that holds, so it never fires.  Returns the state and the
`DART_OK` result. -/
def handleCopyin (create : RtState → RtState) (myid : Nat) (dep : TaskDep)
    (taskId : Nat) (s : RtState) : RtState × Bool :=
  let destGptr : Gptr :=
    { unitid := myid, segid := localCopyinSegid, teamid := 0, flags := 0,
      addrOrOffs := dep.copyinDest }
  let slot := hashGptr destGptr
  let scan := fun (st : RtState) =>
    match st.localDeps with
    | none => (none : Option Nat)
    | some tbl => copyinScan dep (tbl slot)
  match scan s with
  | some elemTask => (copyinAttach myid dep destGptr taskId elemTask s, true)
  | none =>
    let s1 := create { s with createCalls := s.createCalls + 1 }
    match scan s1 with
    | some elemTask => (copyinAttach myid dep destGptr taskId elemTask s1, true)
    | none =>
      let iter : Nat := 1
      let s2 := if iter = 0 then { s1 with aborted := true } else s1
      (create { s2 with createCalls := s2.createCalls + 1 }, true)

/-! ## Release engine -/

/-- `release_remote_dependencies` (source lines 907-922): send a release for
every record in `remote_successor`, recycle each record, clear the list. -/
def releaseRemoteDependencies (taskId : Nat) (s : RtState) : RtState :=
  let t := s.tasks taskId
  { s with
    msgs := s.msgs ++
      t.remoteSuccessor.map (fun rs => Msg.remoteRelease rs.origin rs.task rs.taskdep),
    freelist := t.remoteSuccessor.foldl (fun fl _ => zeroDepElem :: fl) s.freelist,
    tasks := updT s.tasks taskId { t with remoteSuccessor := [] } }

/-- `release_local_dep_counter` (source lines 88-98) applied to each popped
successor, together with the enqueue check of
`dart_tasking_datadeps_release_local_task` (source lines 873-882): decrement
`unresolved_deps`, read (`DART_FETCH32`) `unresolved_remote_deps`, flag the
fatal underflow assertion, and enqueue the successor when both counters are
zero and it is still in state `CREATED`. -/
def releaseSuccessors : List Nat → RtState → RtState
  | [], s => s
  | succ :: rest, s =>
    let t := s.tasks succ
    let nl := t.unresolvedDeps - 1
    let nr := t.unresolvedRemoteDeps
    let s1 := { s with tasks := updT s.tasks succ { t with unresolvedDeps := nl } }
    if nl < 0 ∨ nr < 0 then
      { s1 with aborted := true }
    else
      let s2 :=
        if t.state == TaskState.created && (nl == 0 && nr == 0) then
          { s1 with enqueued := s1.enqueued ++ [succ] }
        else s1
      releaseSuccessors rest s2

/-- `dart_tasking_datadeps_release_local_task` (source lines 864-885):
release the remote successors unless the task was cancelled, then pop and
release every local successor. -/
def releaseLocalTask (taskId : Nat) (s : RtState) : RtState :=
  let s0 :=
    if (s.tasks taskId).state == TaskState.cancelled then s
    else releaseRemoteDependencies taskId s
  let succs := (s0.tasks taskId).successor
  let s1 := { s0 with
    tasks := updT s0.tasks taskId { s0.tasks taskId with successor := [] } }
  releaseSuccessors succs s1

/-! ## Reset -/

/-- `free_dephash_list` (source lines 128-137): recycle every element of a
list onto the zeroing free list. -/
def freeDephashList (l : List DepElem) (freelist : List DepElem) :
    List DepElem :=
  l.foldl (fun fl _ => zeroDepElem :: fl) freelist

/-- `dart_tasking_datadeps_reset` (source lines 139-154) on a non-`NULL`
task: when the task has no dependency hash table the function returns
`DART_OK` immediately; otherwise it recycles all bucket records and the
remote-successor records, drops the table, and zeroes both counters.
Returns the task, the free list and the `DART_OK` result. -/
def datadepsReset (t : DartTask) (freelist : List DepElem) :
    DartTask × List DepElem × Bool :=
  match t.localDeps with
  | none => (t, freelist, true)
  | some tbl =>
    let fl := (List.range DART_DEPHASH_SIZE).foldl
      (fun fl i => freeDephashList (tbl i) fl) freelist
    let fl := freeDephashList t.remoteSuccessor fl
    ({ t with localDeps := none, remoteSuccessor := [],
              unresolvedDeps := 0, unresolvedRemoteDeps := 0 }, fl, true)

/-! ## Remote direct dependencies -/

/-- The dummy dependency built by
`dart_tasking_datadeps_handle_remote_direct`; the source leaves `dep.phase`
uninitialized, the embedding fixes it to 0 (no theorem depends on it). -/
def remoteDirectDep : TaskDep :=
  { type := DepType.directDep, gptr := gptrNull, phase := 0 }

/-- Result of `dart_tasking_datadeps_handle_remote_direct`. -/
structure RemoteDirectResult where
  task : DartTask
  msgs : List Msg
  retOk : Bool

/-- `dart_tasking_datadeps_handle_remote_direct` (source lines 831-859):
if the local task is still active (checked once before and once under its
mutex, which coincide in this sequential model), push a new `DIRECT` record
onto its `remote_successor`; otherwise send a release to the origin at once.
Returns `DART_OK` in both cases. -/
def handleRemoteDirect (localTask : DartTask) (remoteTask : Nat)
    (origin : Nat) : RemoteDirectResult :=
  if isActiveTask localTask then
    if isActiveTask localTask then
      { task := { localTask with
          remoteSuccessor :=
            (⟨remoteDirectDep, remoteTask, origin⟩ : DepElem) ::
              localTask.remoteSuccessor },
        msgs := [], retOk := true }
    else
      { task := localTask,
        msgs := [Msg.remoteRelease origin remoteTask remoteDirectDep],
        retOk := true }
  else
    { task := localTask,
      msgs := [Msg.remoteRelease origin remoteTask remoteDirectDep],
      retOk := true }

/-! ## Concrete inputs used by the counterexamples and witnesses -/

/-- A task in state `CREATED` with clear counters and lists. -/
def baseTask : DartTask :=
  ⟨TaskState.created, 0, 0, 0, [], [], none⟩

/-- A state with only `baseTask`s and no table, trace or lists. -/
def baseState : RtState :=
  ⟨fun _ => baseTask, none, [], [], [], [], 0, false⟩

/-- An aligned local address; its hash slot is 1. -/
def gptrA : Gptr := ⟨0, 0, 0, 0, 4⟩

def mkTask (st : TaskState) (ph ul ur : Int) (succ : List Nat)
    (rsucc : List DepElem) : DartTask :=
  ⟨st, ph, ul, ur, succ, rsucc, none⟩

/-- Claim 1 counterexample: one active local writer in phase 7. -/
def c1Elem : DepElem := ⟨{ type := DepType.outDep, gptr := gptrA, phase := 7 }, 1, 0⟩

/-- Claim 1 counterexample: an incoming remote input dependency of phase 5. -/
def c1Rdep : DepElem := ⟨{ type := DepType.inDep, gptr := gptrA, phase := 5 }, 42, 3⟩

def c1State : RtState :=
  { baseState with
    tasks := fun _ => mkTask TaskState.created 7 0 0 [] [],
    localDeps := some (fun sl => if sl = 1 then [c1Elem] else []) }

/-- Claim 2 counterexample: a finished writer record ahead of an active one. -/
def c2ElemDone : DepElem := ⟨{ type := DepType.outDep, gptr := gptrA, phase := 0 }, 1, 0⟩

def c2ElemActive : DepElem := ⟨{ type := DepType.outDep, gptr := gptrA, phase := 0 }, 2, 0⟩

def c2Rdep : DepElem := ⟨{ type := DepType.inDep, gptr := gptrA, phase := 5 }, 99, 3⟩

def c2State : RtState :=
  { baseState with
    tasks := fun i =>
      if i = 1 then mkTask TaskState.finished 0 0 0 [] []
      else mkTask TaskState.created 0 0 0 [] [],
    localDeps := some (fun sl => if sl = 1 then [c2ElemDone, c2ElemActive] else []) }

/-- Claim 3 counterexample: record phases 5 and 4, task phases 0 and 9. -/
def c3ElemHi : DepElem := ⟨{ type := DepType.outDep, gptr := gptrA, phase := 5 }, 10, 0⟩

def c3ElemLo : DepElem := ⟨{ type := DepType.outDep, gptr := gptrA, phase := 4 }, 20, 0⟩

def c3Rdep : DepElem := ⟨{ type := DepType.inDep, gptr := gptrA, phase := 4 }, 77, 6⟩

def c3State : RtState :=
  { baseState with
    tasks := fun i =>
      if i = 10 then mkTask TaskState.created 0 0 0 [] []
      else if i = 20 then mkTask TaskState.created 9 0 0 [] []
      else baseTask,
    localDeps := some (fun sl => if sl = 1 then [c3ElemHi, c3ElemLo] else []) }

/-- Claim 4 counterexample: segment 0, address 0 (hash slot 0). -/
def c4Gptr0 : Gptr := ⟨0, 0, 0, 0, 0⟩

/-- Claim 4 counterexample: segment 1023, address 0 (hash slot 0 as well). -/
def c4Gptr1 : Gptr := ⟨0, 1023, 0, 0, 0⟩

def c4Elem : DepElem := ⟨{ type := DepType.outDep, gptr := c4Gptr0, phase := 1 }, 1, 0⟩

def c4Dep : TaskDep := { type := DepType.inDep, gptr := c4Gptr1, phase := 1 }

def c4State : RtState :=
  { baseState with
    localDeps := some (fun sl => if sl = 0 then [c4Elem] else []) }

/-- Claim 5 counterexample: a finishing task with one successor holding one
local and one remote unresolved dependency. -/
def c5State : RtState :=
  { baseState with
    tasks := fun i =>
      if i = 0 then mkTask TaskState.running 0 0 0 [1] []
      else if i = 1 then mkTask TaskState.created 0 1 1 [] []
      else baseTask }

/-- Claim 6 counterexample: an `IN` record of the new task itself sits ahead
of the active writer in the bucket. -/
def c6SelfElem : DepElem := ⟨{ type := DepType.inDep, gptr := gptrA, phase := 1 }, 2, 0⟩

def c6WriterElem : DepElem := ⟨{ type := DepType.outDep, gptr := gptrA, phase := 0 }, 1, 0⟩

def c6Dep : TaskDep := { type := DepType.inDep, gptr := gptrA, phase := 1 }

def c6State : RtState :=
  { baseState with
    localDeps := some (fun sl => if sl = 1 then [c6SelfElem, c6WriterElem] else []) }

/-- Claim 7 witness scenario: writers in phases 3 and 5, delayed reader in
phase 4. -/
def c7W2Elem : DepElem := ⟨{ type := DepType.outDep, gptr := gptrA, phase := 5 }, 2, 0⟩

def c7W1Elem : DepElem := ⟨{ type := DepType.outDep, gptr := gptrA, phase := 3 }, 1, 0⟩

def c7Dep : TaskDep := { type := DepType.delayedInDep, gptr := gptrA, phase := 4 }

def c7State : RtState :=
  { baseState with
    tasks := fun i =>
      if i = 1 then mkTask TaskState.created 3 0 0 [] []
      else if i = 2 then mkTask TaskState.created 5 1 0 [] []
      else mkTask TaskState.created 4 0 0 [] [],
    localDeps := some (fun sl => if sl = 1 then [c7W2Elem, c7W1Elem] else []) }

/-- Claim 8 failing input: a copy-in dependency whose prefetch-task creation
installs no `OUT` record (the external creation effect is the identity). -/
def c8Dep : TaskDep :=
  { type := DepType.copyinDep, gptr := gptrNull, phase := 2, copyinDest := 8 }

def c8State : RtState := { baseState with localDeps := some (fun _ => []) }

/-- Claim 9 counterexample: a task without a dependency table but with a
remote successor record and nonzero counters. -/
def c9Task : DartTask :=
  ⟨TaskState.running, 0, 3, 2, [], [c1Elem], none⟩

/-- Task identifiers enqueued as runnable between two states. -/
def newlyEnqueued (s s' : RtState) : List Nat := s'.enqueued.drop s.enqueued.length

/-- The Boolean enqueue test of one `release_local_task` step, phrased on the
pre-state: the popped successor is still `CREATED`, its local counter is
about to reach zero, and its remote counter reads zero. -/
def enqCond (s : RtState) (x : Nat) : Bool :=
  (s.tasks x).state == TaskState.created &&
    ((s.tasks x).unresolvedDeps - 1 == 0 &&
      (s.tasks x).unresolvedRemoteDeps == 0)

/-- Claim 2 witness: a single active writer of phase 0. -/
def c2wElem : DepElem := ⟨{ type := DepType.outDep, gptr := gptrA, phase := 0 }, 4, 0⟩

def c2wState : RtState :=
  { baseState with
    localDeps := some (fun sl => if sl = 1 then [c2wElem] else []) }

/-- Claim 3 witness: one active matching writer record of phase 5 whose task
also has phase 5. -/
def c3wState : RtState :=
  { baseState with
    tasks := fun i =>
      if i = 10 then mkTask TaskState.created 5 0 0 [] [] else baseTask,
    localDeps := some (fun sl => if sl = 1 then [c3ElemHi] else []) }

/-- Claim 5 witness: a finishing task with two successors, one of which
becomes runnable. -/
def c5wState : RtState :=
  { baseState with
    tasks := fun i =>
      if i = 0 then mkTask TaskState.running 0 0 0 [1, 2] []
      else if i = 1 then mkTask TaskState.created 0 1 0 [] []
      else if i = 2 then mkTask TaskState.created 0 2 0 [] []
      else baseTask }

/-- Claim 6 witness: an input record of another task ahead of the writer. -/
def c6wReader : DepElem := ⟨{ type := DepType.inDep, gptr := gptrA, phase := 2 }, 3, 0⟩

def c6wDep : TaskDep := { type := DepType.outDep, gptr := gptrA, phase := 3 }

def c6wState : RtState :=
  { baseState with
    localDeps := some (fun sl => if sl = 1 then [c6wReader, c6WriterElem] else []) }

/-- Claim 9 witness: a task owning an (empty) dependency hash table. -/
def c9TaskTbl : DartTask :=
  ⟨TaskState.running, 0, 3, 2, [], [c1Elem], some (fun _ => [])⟩

/-! ## Basic lemmas about the task-map update -/

theorem updT_self (m : Nat → DartTask) (i : Nat) (t : DartTask) :
    updT m i t i = t := by
  simp [updT]

theorem updT_ne (m : Nat → DartTask) (i : Nat) (t : DartTask) {j : Nat}
    (h : j ≠ i) : updT m i t j = m j := by
  simp [updT, h]

/-! ## Claim C8 -/

/-- Claim C8 evaluated at the failing input: after the prefetch-task creation
(modelled as a no-op, since the prefetch task installs its record outside
these sources) the bucket scan is retried and finds no `OUT` record with the
destination address and phase, yet the run does NOT abort: the source guards
`DART_ASSERT_MSG(iter, ...)` with `iter > 0`, and the assertion condition
`iter` (then 1) holds, so execution continues, a second prefetch task is
created, and `DART_OK` is returned. -/
theorem claim8_theorem :
    (handleCopyin (fun st => st) 0 c8Dep 5 c8State).1.aborted = false ∧
    (handleCopyin (fun st => st) 0 c8Dep 5 c8State).1.createCalls = 2 ∧
    (handleCopyin (fun st => st) 0 c8Dep 5 c8State).2 = true := by
  decide

/-! ## Claim C9 -/

/-- Claim C9 fails as stated: on a task with no dependency hash table,
`dart_tasking_datadeps_reset` returns `DART_OK` immediately and leaves the
remote-successor list and both counters untouched. -/
theorem claim9_counterexample :
    (datadepsReset c9Task []).2.2 = true ∧
    (datadepsReset c9Task []).1.remoteSuccessor ≠ [] ∧
    (datadepsReset c9Task []).1.unresolvedDeps = 3 ∧
    (datadepsReset c9Task []).1.unresolvedRemoteDeps = 2 := by
  decide

/-- Claim C9 (amended): `dart_tasking_datadeps_reset` returns `DART_OK`; when
the task owns a dependency hash table, the table is dropped, the
remote-successor list is cleared and both counters are zeroed; when it owns
none, the call is a no-op. -/
theorem claim9_theorem (t : DartTask) (fl : List DepElem) :
    (datadepsReset t fl).2.2 = true ∧
    (t.localDeps ≠ none →
      (datadepsReset t fl).1.localDeps = none ∧
      (datadepsReset t fl).1.remoteSuccessor = [] ∧
      (datadepsReset t fl).1.unresolvedDeps = 0 ∧
      (datadepsReset t fl).1.unresolvedRemoteDeps = 0) ∧
    (t.localDeps = none → datadepsReset t fl = (t, fl, true)) := by
  rcases h : t.localDeps with _ | tbl
  · exact ⟨by simp [datadepsReset, h], fun hn => absurd rfl hn,
      fun _ => by simp [datadepsReset, h]⟩
  · exact ⟨by simp [datadepsReset, h], fun _ => by simp [datadepsReset, h],
      fun hn => by simp at hn⟩

/-- Witness for claim C9: a task owning a table is fully cleared. -/
theorem claim9_witness :
    (datadepsReset c9TaskTbl []).1.localDeps = none ∧
    (datadepsReset c9TaskTbl []).1.remoteSuccessor = [] ∧
    (datadepsReset c9TaskTbl []).1.unresolvedDeps = 0 ∧
    (datadepsReset c9TaskTbl []).1.unresolvedRemoteDeps = 0 :=
  (claim9_theorem c9TaskTbl []).2.1 (by simp [c9TaskTbl])

/-! ## Claim C10 -/

/-- Claim C10: `dart_tasking_datadeps_handle_remote_direct` always returns
`DART_OK`, and exactly one of two outcomes occurs, decided by whether the
local task is still active: either a new `DIRECT` record referencing the
remote task and origin is pushed onto its `remote_successor`, or a remote
release is sent to the origin immediately. -/
theorem claim10_theorem (t : DartTask) (remoteRef origin : Nat) :
    (handleRemoteDirect t remoteRef origin).retOk = true ∧
    (handleRemoteDirect t remoteRef origin).task.remoteSuccessor =
      (if isActiveTask t then
        (⟨remoteDirectDep, remoteRef, origin⟩ : DepElem) :: t.remoteSuccessor
       else t.remoteSuccessor) ∧
    (handleRemoteDirect t remoteRef origin).msgs =
      (if isActiveTask t then ([] : List Msg)
       else [Msg.remoteRelease origin remoteRef remoteDirectDep]) ∧
    (((handleRemoteDirect t remoteRef origin).msgs = [] ∧
      (handleRemoteDirect t remoteRef origin).task.remoteSuccessor ≠
        t.remoteSuccessor) ∨
     ((handleRemoteDirect t remoteRef origin).msgs ≠ [] ∧
      (handleRemoteDirect t remoteRef origin).task.remoteSuccessor =
        t.remoteSuccessor)) := by
  by_cases h : isActiveTask t
  · refine ⟨by simp [handleRemoteDirect, h], by simp [handleRemoteDirect, h],
      by simp [handleRemoteDirect, h], Or.inl ⟨by simp [handleRemoteDirect, h], ?_⟩⟩
    simp only [handleRemoteDirect, h, if_pos]
    intro hc
    exact (List.cons_ne_self _ _) hc
  · refine ⟨by simp [handleRemoteDirect, h], by simp [handleRemoteDirect, h],
      by simp [handleRemoteDirect, h], Or.inr ⟨by simp [handleRemoteDirect, h], ?_⟩⟩
    simp [handleRemoteDirect, h]

/-! ## Support lemmas for the deferred-remote handler -/

theorem applyDDC_rsucc (s : RtState) (rdep : DepElem) (o : Option Nat)
    (t : Nat) :
    ((applyDirectDepCandidate s rdep o).tasks t).remoteSuccessor =
      (s.tasks t).remoteSuccessor := by
  cases o with
  | none => rfl
  | some d =>
    by_cases h : t = d
    · subst h; simp [applyDirectDepCandidate, updT_self]
    · simp [applyDirectDepCandidate, updT_ne _ _ _ h]

theorem applyDDC_freelist (s : RtState) (rdep : DepElem) (o : Option Nat) :
    (applyDirectDepCandidate s rdep o).freelist = s.freelist := by
  cases o <;> rfl

theorem applyDDC_msgs_none (s : RtState) (rdep : DepElem) :
    (applyDirectDepCandidate s rdep none).msgs = s.msgs := rfl

theorem applyDDC_msgs_some (s : RtState) (rdep : DepElem) (d : Nat) :
    (applyDirectDepCandidate s rdep (some d)).msgs =
      s.msgs ++ [Msg.directTaskdep rdep.origin d rdep.task] := rfl

theorem applyDDC_counter (s : RtState) (rdep : DepElem) (d : Nat) :
    ((applyDirectDepCandidate s rdep (some d)).tasks d).unresolvedRemoteDeps =
      (s.tasks d).unresolvedRemoteDeps + 1 := by
  simp [applyDirectDepCandidate, updT_self]

theorem applyDDC_blocked (s : RtState) (rdep : DepElem) (d : Nat) :
    (applyDirectDepCandidate s rdep (some d)).remoteBlocked =
      (if (s.tasks d).unresolvedRemoteDeps = 0 then d :: s.remoteBlocked
       else s.remoteBlocked) := rfl

theorem handleOne_attach (s : RtState) (rdep : DepElem) (c : Nat)
    (h : (scanOf s rdep).1 = some c) :
    handleOneRemoteDep s rdep =
      { applyDirectDepCandidate s rdep (scanOf s rdep).2 with
        tasks := updT (applyDirectDepCandidate s rdep (scanOf s rdep).2).tasks c
          { (applyDirectDepCandidate s rdep (scanOf s rdep).2).tasks c with
            remoteSuccessor :=
              rdep ::
                ((applyDirectDepCandidate s rdep (scanOf s rdep).2).tasks
                    c).remoteSuccessor } } := by
  simp only [handleOneRemoteDep, h]

theorem handleOne_release (s : RtState) (rdep : DepElem)
    (h : (scanOf s rdep).1 = none) :
    handleOneRemoteDep s rdep =
      { applyDirectDepCandidate s rdep (scanOf s rdep).2 with
        msgs := (applyDirectDepCandidate s rdep (scanOf s rdep).2).msgs ++
          [Msg.remoteRelease rdep.origin rdep.task rdep.taskdep],
        freelist :=
          zeroDepElem ::
            (applyDirectDepCandidate s rdep (scanOf s rdep).2).freelist } := by
  simp only [handleOneRemoteDep, h]

/-! ## Claim C1 -/

/-- Claim C1 fails as stated: at this input the handler both sends a release
back to the origin (recycling the record) and sends a direct-taskdep to the
origin, so two of the three outcomes occur for one record. -/
theorem claim1_counterexample :
    ¬ exactlyOneOfThree
        (Msg.remoteRelease c1Rdep.origin c1Rdep.task c1Rdep.taskdep ∈
          sentMsgs c1State (handleOneRemoteDep c1State c1Rdep))
        (Msg.directTaskdep c1Rdep.origin 1 c1Rdep.task ∈
          sentMsgs c1State (handleOneRemoteDep c1State c1Rdep))
        (∃ c, ((handleOneRemoteDep c1State c1Rdep).tasks c).remoteSuccessor =
          c1Rdep :: (c1State.tasks c).remoteSuccessor) := by
  have hA : Msg.remoteRelease c1Rdep.origin c1Rdep.task c1Rdep.taskdep ∈
      sentMsgs c1State (handleOneRemoteDep c1State c1Rdep) := by decide
  have hB : Msg.directTaskdep c1Rdep.origin 1 c1Rdep.task ∈
      sentMsgs c1State (handleOneRemoteDep c1State c1Rdep) := by decide
  intro h
  rcases h with ⟨-, hnb, -⟩ | ⟨hna, -, -⟩ | ⟨hna, -, -⟩
  · exact hnb hB
  · exact hna hA
  · exact hna hA

/-- Claim C1 (amended): for every pending record, exactly one of the two
record fates occurs: either a release is sent back to its origin and the
record is recycled onto the free list (and then no task's remote-successor
list changes), or the record is attached to the remote-successor list of one
local task (and then no release for it is sent and the free list is
unchanged).  Independently of this, a direct-taskdep may also be sent. -/
theorem claim1_theorem (s : RtState) (rdep : DepElem) :
    (Msg.remoteRelease rdep.origin rdep.task rdep.taskdep ∈
        sentMsgs s (handleOneRemoteDep s rdep) ∧
      (handleOneRemoteDep s rdep).freelist = zeroDepElem :: s.freelist ∧
      ∀ t, ((handleOneRemoteDep s rdep).tasks t).remoteSuccessor =
        (s.tasks t).remoteSuccessor) ∨
    ((∃ c, ((handleOneRemoteDep s rdep).tasks c).remoteSuccessor =
        rdep :: (s.tasks c).remoteSuccessor) ∧
      Msg.remoteRelease rdep.origin rdep.task rdep.taskdep ∉
        sentMsgs s (handleOneRemoteDep s rdep) ∧
      (handleOneRemoteDep s rdep).freelist = s.freelist) := by
  rcases hc : (scanOf s rdep).1 with _ | c
  · left
    rw [handleOne_release s rdep hc]
    rcases hd : (scanOf s rdep).2 with _ | d
    · refine ⟨?_, ?_, fun t => applyDDC_rsucc s rdep none t⟩
      · simp [sentMsgs, applyDirectDepCandidate, List.drop_left]
      · simp [applyDirectDepCandidate]
    · refine ⟨?_, ?_, fun t => applyDDC_rsucc s rdep (some d) t⟩
      · simp [sentMsgs, applyDirectDepCandidate, List.drop_left]
      · simp [applyDirectDepCandidate]
  · right
    rw [handleOne_attach s rdep c hc]
    rcases hd : (scanOf s rdep).2 with _ | d
    · refine ⟨⟨c, ?_⟩, ?_, ?_⟩
      · simp only [updT_self]
        rw [applyDDC_rsucc]
      · simp [sentMsgs, applyDirectDepCandidate, List.drop_length]
      · simp [applyDirectDepCandidate]
    · refine ⟨⟨c, ?_⟩, ?_, ?_⟩
      · simp only [updT_self]
        rw [applyDDC_rsucc]
      · simp [sentMsgs, applyDirectDepCandidate, List.drop_left]
      · simp [applyDirectDepCandidate]

/-! ## Claim C2 -/

/-- Claim C2 fails as stated: the bucket holds a finished matching writer
record ahead of an active one whose phase is strictly earlier than the remote
record's, so by the claim the active record's task (task 2) is the satisfier
and the record should be attached to it; the code instead stops at the first
inactive matching record, sends a release and recycles the record. -/
theorem claim2_counterexample :
    ((handleOneRemoteDep c2State c2Rdep).tasks 2).remoteSuccessor = [] ∧
    Msg.remoteRelease c2Rdep.origin c2Rdep.task c2Rdep.taskdep ∈
      sentMsgs c2State (handleOneRemoteDep c2State c2Rdep) ∧
    isActiveTask (c2State.tasks 2) = true ∧
    remoteMatch c2Rdep c2ElemActive = true ∧
    c2ElemActive.taskdep.phase < c2Rdep.taskdep.phase ∧
    c2ElemActive.task = 2 ∧
    (c2State.localDeps.getD (fun _ => []))
        (hashGptr c2Rdep.taskdep.gptr) = [c2ElemDone, c2ElemActive] ∧
    isActiveTask (c2State.tasks c2ElemDone.task) = false := by
  decide

theorem deferredRemoteScan_fst (tasks : Nat → DartTask) (rdep : DepElem) :
    ∀ (l : List DepElem) (ddc : Option Nat),
      (deferredRemoteScan tasks rdep l ddc).1 = satisfierSpec tasks rdep l := by
  intro l
  induction l with
  | nil => intro ddc; rfl
  | cons e rest ih =>
    intro ddc
    simp only [deferredRemoteScan, satisfierSpec]
    by_cases hm : (isOutDep e.taskdep && depAddrEq e.taskdep rdep.taskdep) = true
    · simp only [hm, if_true]
      by_cases ha : isActiveTask (tasks e.task) = true
      · simp only [ha, Bool.not_true, Bool.false_eq_true, if_false]
        by_cases hp : e.taskdep.phase < rdep.taskdep.phase
        · simp [hp]
        · simp [hp, ih]
      · have ha' : isActiveTask (tasks e.task) = false := by
          revert ha; cases isActiveTask (tasks e.task) <;> simp
        simp [ha']
    · have hm' : (isOutDep e.taskdep && depAddrEq e.taskdep rdep.taskdep) = false := by
        revert hm; cases (isOutDep e.taskdep && depAddrEq e.taskdep rdep.taskdep) <;> simp
      simp [hm', ih]

/-- Claim C2 (amended): the satisfier is the first matching active `OUT`
record of strictly earlier phase, where the bucket search gives up at the
first matching record whose task is no longer active (`satisfierSpec`); when
a satisfier is found, the record is attached to its `remote_successor` and no
release for it is sent; when there is none, a release is sent back to the
origin, the record is recycled, and no remote-successor list changes. -/
theorem claim2_theorem (s : RtState) (rdep : DepElem) :
    (∀ c, satisfierSpecOf s rdep = some c →
      ((handleOneRemoteDep s rdep).tasks c).remoteSuccessor =
        rdep :: (s.tasks c).remoteSuccessor ∧
      Msg.remoteRelease rdep.origin rdep.task rdep.taskdep ∉
        sentMsgs s (handleOneRemoteDep s rdep)) ∧
    (satisfierSpecOf s rdep = none →
      Msg.remoteRelease rdep.origin rdep.task rdep.taskdep ∈
        sentMsgs s (handleOneRemoteDep s rdep) ∧
      (handleOneRemoteDep s rdep).freelist = zeroDepElem :: s.freelist ∧
      ∀ t, ((handleOneRemoteDep s rdep).tasks t).remoteSuccessor =
        (s.tasks t).remoteSuccessor) := by
  have hfst : (scanOf s rdep).1 = satisfierSpecOf s rdep := by
    rcases h : s.localDeps with _ | tbl
    · simp [scanOf, satisfierSpecOf, h]
    · simp [scanOf, satisfierSpecOf, h, deferredRemoteScan_fst]
  constructor
  · intro c hcs
    have hc : (scanOf s rdep).1 = some c := by rw [hfst, hcs]
    rw [handleOne_attach s rdep c hc]
    rcases hd : (scanOf s rdep).2 with _ | d
    · refine ⟨?_, ?_⟩
      · simp only [updT_self]; rw [applyDDC_rsucc]
      · simp [sentMsgs, applyDirectDepCandidate, List.drop_length]
    · refine ⟨?_, ?_⟩
      · simp only [updT_self]; rw [applyDDC_rsucc]
      · simp [sentMsgs, applyDirectDepCandidate, List.drop_left]
  · intro hcs
    have hc : (scanOf s rdep).1 = none := by rw [hfst, hcs]
    rw [handleOne_release s rdep hc]
    rcases hd : (scanOf s rdep).2 with _ | d
    · exact ⟨by simp [sentMsgs, applyDirectDepCandidate, List.drop_left],
        by simp [applyDirectDepCandidate],
        fun t => applyDDC_rsucc s rdep none t⟩
    · exact ⟨by simp [sentMsgs, applyDirectDepCandidate, List.drop_left],
        by simp [applyDirectDepCandidate],
        fun t => applyDDC_rsucc s rdep (some d) t⟩

/-- Witness for claim C2: a bucket with one active earlier-phase writer; the
satisfier is found and the record is attached to it. -/
theorem claim2_witness :
    satisfierSpecOf c2wState c2Rdep = some 4 ∧
    ((handleOneRemoteDep c2wState c2Rdep).tasks 4).remoteSuccessor =
      c2Rdep :: (c2wState.tasks 4).remoteSuccessor :=
  ⟨by decide, ((claim2_theorem c2wState c2Rdep).1 4 (by decide)).1⟩

/-- Behaviour of the direct-dependency accumulator of the deferred-remote
scan on a phase-descending bucket whose matching records are all active and
whose record phases agree with their tasks' phases: the accumulator ends on a
task of a matching record of phase at or after the remote phase (or stays at
its start value), it is `none` only if it started as `none` and no such
record exists, its task phase is a lower bound on all such records' phases,
and it never increases. -/
theorem deferredRemoteScan_ddc (tasks : Nat → DartTask) (rdep : DepElem)
    (l : List DepElem) :
    ∀ (d0 : Option Nat),
      (∀ e ∈ l, remoteMatch rdep e = true → isActiveTask (tasks e.task) = true) →
      (∀ e ∈ l, (tasks e.task).phase = e.taskdep.phase) →
      l.Pairwise (fun a b => b.taskdep.phase ≤ a.taskdep.phase) →
      (∀ dv, (deferredRemoteScan tasks rdep l d0).2 = some dv →
        d0 = some dv ∨
          ∃ e ∈ l, remoteMatch rdep e = true ∧
            rdep.taskdep.phase ≤ e.taskdep.phase ∧ e.task = dv) ∧
      ((deferredRemoteScan tasks rdep l d0).2 = none →
        d0 = none ∧
          ∀ e ∈ l, remoteMatch rdep e = true →
            e.taskdep.phase < rdep.taskdep.phase) ∧
      (∀ dv, (deferredRemoteScan tasks rdep l d0).2 = some dv →
        ∀ e ∈ l, remoteMatch rdep e = true →
          rdep.taskdep.phase ≤ e.taskdep.phase →
          (tasks dv).phase ≤ e.taskdep.phase) ∧
      (∀ dv d0v, (deferredRemoteScan tasks rdep l d0).2 = some dv →
        d0 = some d0v → (tasks dv).phase ≤ (tasks d0v).phase) := by
  induction l with
  | nil =>
    intro d0 _ _ _
    refine ⟨fun dv h => Or.inl h, fun h => ⟨h, by simp⟩,
      fun dv h e he => absurd he (by simp), ?_⟩
    intro dv d0v h h0
    have h2 : d0 = some dv := h
    rw [h0] at h2
    injection h2 with h2
    rw [h2]
  | cons e rest ih =>
    intro d0 hact hph hsort
    have hsort' := (List.pairwise_cons.mp hsort).2
    have hhd := (List.pairwise_cons.mp hsort).1
    have hact' : ∀ x ∈ rest, remoteMatch rdep x = true →
        isActiveTask (tasks x.task) = true :=
      fun x hx => hact x (List.mem_cons_of_mem e hx)
    have hph' : ∀ x ∈ rest, (tasks x.task).phase = x.taskdep.phase :=
      fun x hx => hph x (List.mem_cons_of_mem e hx)
    by_cases hm : (isOutDep e.taskdep && depAddrEq e.taskdep rdep.taskdep) = true
    · have hae : isActiveTask (tasks e.task) = true :=
        hact e (List.mem_cons_self e rest) hm
      by_cases hlt : e.taskdep.phase < rdep.taskdep.phase
      · have hres : deferredRemoteScan tasks rdep (e :: rest) d0 = (some e.task, d0) := by
          simp [deferredRemoteScan, hm, hae, hlt]
        rw [hres]
        refine ⟨fun dv h => Or.inl h, fun h => ⟨h, ?_⟩, ?_, ?_⟩
        · intro x hx hmx
          rcases List.mem_cons.mp hx with rfl | hx'
          · exact hlt
          · exact lt_of_le_of_lt (hhd x hx') hlt
        · intro dv h x hx hmx hge
          rcases List.mem_cons.mp hx with rfl | hx'
          · exact absurd hlt (not_lt.mpr hge)
          · exact absurd (lt_of_le_of_lt (hhd x hx') hlt) (not_lt.mpr hge)
        · intro dv d0v h h0
          have h2 : d0 = some dv := h
          rw [h0] at h2
          injection h2 with h2
          rw [h2]
      · have hge : rdep.taskdep.phase ≤ e.taskdep.phase := not_lt.mp hlt
        have hephase : (tasks e.task).phase = e.taskdep.phase :=
          hph e (List.mem_cons_self e rest)
        rcases d0 with _ | d0v
        · have hres : deferredRemoteScan tasks rdep (e :: rest) none =
              deferredRemoteScan tasks rdep rest (some e.task) := by
            simp [deferredRemoteScan, hm, hae, hlt]
          rw [hres]
          obtain ⟨ih1, ih2, ih3, ih4⟩ := ih (some e.task) hact' hph' hsort'
          refine ⟨?_, ?_, ?_, ?_⟩
          · intro dv h
            rcases ih1 dv h with h1 | ⟨x, hx, hmx, hgex, hxt⟩
            · right
              refine ⟨e, List.mem_cons_self e rest, hm, hge, ?_⟩
              injection h1
            · right
              exact ⟨x, List.mem_cons_of_mem e hx, hmx, hgex, hxt⟩
          · intro h
            exact absurd (ih2 h).1 (by simp)
          · intro dv h x hx hmx hgex
            rcases List.mem_cons.mp hx with rfl | hx'
            · exact le_trans (ih4 dv x.task h rfl) (le_of_eq hephase)
            · exact ih3 dv h x hx' hmx hgex
          · intro dv d0v h h0
            exact absurd h0 (by simp)
        · by_cases hgt : (tasks d0v).phase > e.taskdep.phase
          · have hres : deferredRemoteScan tasks rdep (e :: rest) (some d0v) =
                deferredRemoteScan tasks rdep rest (some e.task) := by
              simp [deferredRemoteScan, hm, hae, hlt, hgt]
            rw [hres]
            obtain ⟨ih1, ih2, ih3, ih4⟩ := ih (some e.task) hact' hph' hsort'
            refine ⟨?_, ?_, ?_, ?_⟩
            · intro dv h
              rcases ih1 dv h with h1 | ⟨x, hx, hmx, hgex, hxt⟩
              · right
                refine ⟨e, List.mem_cons_self e rest, hm, hge, ?_⟩
                injection h1
              · right
                exact ⟨x, List.mem_cons_of_mem e hx, hmx, hgex, hxt⟩
            · intro h
              exact absurd (ih2 h).1 (by simp)
            · intro dv h x hx hmx hgex
              rcases List.mem_cons.mp hx with rfl | hx'
              · exact le_trans (ih4 dv x.task h rfl) (le_of_eq hephase)
              · exact ih3 dv h x hx' hmx hgex
            · intro dv d0v' h h0
              injection h0 with h0
              have h4 := le_trans (ih4 dv e.task h rfl) (le_of_eq hephase)
              rw [← h0]
              exact le_of_lt (lt_of_le_of_lt h4 hgt)
          · have hres : deferredRemoteScan tasks rdep (e :: rest) (some d0v) =
                deferredRemoteScan tasks rdep rest (some d0v) := by
              simp [deferredRemoteScan, hm, hae, hlt, hgt]
            rw [hres]
            obtain ⟨ih1, ih2, ih3, ih4⟩ := ih (some d0v) hact' hph' hsort'
            have hle : (tasks d0v).phase ≤ e.taskdep.phase := not_lt.mp hgt
            refine ⟨?_, ?_, ?_, ?_⟩
            · intro dv h
              rcases ih1 dv h with h1 | ⟨x, hx, hmx, hgex, hxt⟩
              · exact Or.inl h1
              · right
                exact ⟨x, List.mem_cons_of_mem e hx, hmx, hgex, hxt⟩
            · intro h
              exact absurd (ih2 h).1 (by simp)
            · intro dv h x hx hmx hgex
              rcases List.mem_cons.mp hx with rfl | hx'
              · exact le_trans (ih4 dv d0v h rfl) hle
              · exact ih3 dv h x hx' hmx hgex
            · intro dv d0v' h h0
              injection h0 with h0
              rw [← h0]
              exact ih4 dv d0v h rfl
    · have hres : deferredRemoteScan tasks rdep (e :: rest) d0 =
          deferredRemoteScan tasks rdep rest d0 := by
        have hm' : (isOutDep e.taskdep && depAddrEq e.taskdep rdep.taskdep) = false := by
          revert hm
          cases (isOutDep e.taskdep && depAddrEq e.taskdep rdep.taskdep) <;> simp
        simp [deferredRemoteScan, hm']
      rw [hres]
      obtain ⟨ih1, ih2, ih3, ih4⟩ := ih d0 hact' hph' hsort'
      refine ⟨?_, ?_, ?_, ih4⟩
      · intro dv h
        rcases ih1 dv h with h1 | ⟨x, hx, hmx, hgex, hxt⟩
        · exact Or.inl h1
        · right
          exact ⟨x, List.mem_cons_of_mem e hx, hmx, hgex, hxt⟩
      · intro h
        obtain ⟨h1, h2⟩ := ih2 h
        refine ⟨h1, ?_⟩
        intro x hx hmx
        rcases List.mem_cons.mp hx with rfl | hx'
        · exact absurd hmx hm
        · exact h2 x hx' hmx
      · intro dv h x hx hmx hgex
        rcases List.mem_cons.mp hx with rfl | hx'
        · exact absurd hmx hm
        · exact ih3 dv h x hx' hmx hgex

/-- Effects of the direct-dependency block on the full handler when a
candidate was found: the direct-taskdep message is sent, the candidate's
remote counter is incremented, and the remote-blocked list is prepended with
the candidate exactly on the 0 to 1 transition. -/
theorem handleOne_ddc_effects (s : RtState) (rdep : DepElem) (d : Nat)
    (hsd : (scanOf s rdep).2 = some d) :
    Msg.directTaskdep rdep.origin d rdep.task ∈
      sentMsgs s (handleOneRemoteDep s rdep) ∧
    ((handleOneRemoteDep s rdep).tasks d).unresolvedRemoteDeps =
      (s.tasks d).unresolvedRemoteDeps + 1 ∧
    ((s.tasks d).unresolvedRemoteDeps = 0 →
      (handleOneRemoteDep s rdep).remoteBlocked = d :: s.remoteBlocked) ∧
    ((s.tasks d).unresolvedRemoteDeps ≠ 0 →
      (handleOneRemoteDep s rdep).remoteBlocked = s.remoteBlocked) := by
  rcases hc : (scanOf s rdep).1 with _ | c
  · rw [handleOne_release s rdep hc, hsd]
    refine ⟨?_, ?_, ?_, ?_⟩
    · simp [sentMsgs, applyDirectDepCandidate, List.drop_left]
    · exact applyDDC_counter s rdep d
    · intro h0
      show (applyDirectDepCandidate s rdep (some d)).remoteBlocked =
        d :: s.remoteBlocked
      rw [applyDDC_blocked, if_pos h0]
    · intro h0
      show (applyDirectDepCandidate s rdep (some d)).remoteBlocked =
        s.remoteBlocked
      rw [applyDDC_blocked, if_neg h0]
  · rw [handleOne_attach s rdep c hc, hsd]
    refine ⟨?_, ?_, ?_, ?_⟩
    · simp [sentMsgs, applyDirectDepCandidate, List.drop_left]
    · show (updT (applyDirectDepCandidate s rdep (some d)).tasks c
          { (applyDirectDepCandidate s rdep (some d)).tasks c with
            remoteSuccessor :=
              rdep ::
                ((applyDirectDepCandidate s rdep (some d)).tasks c).remoteSuccessor }
          d).unresolvedRemoteDeps = (s.tasks d).unresolvedRemoteDeps + 1
      by_cases hdc : d = c
      · subst hdc
        rw [updT_self]
        exact applyDDC_counter s rdep d
      · rw [updT_ne _ _ _ hdc]
        exact applyDDC_counter s rdep d
    · intro h0
      show (applyDirectDepCandidate s rdep (some d)).remoteBlocked =
        d :: s.remoteBlocked
      rw [applyDDC_blocked, if_pos h0]
    · intro h0
      show (applyDirectDepCandidate s rdep (some d)).remoteBlocked =
        s.remoteBlocked
      rw [applyDDC_blocked, if_neg h0]

/-- Claim C3 fails as stated: the bucket holds two active matching records
with dependency phases 5 and 4, both at or after the remote phase 4, so by
the claim the candidate with the LOWEST phase (the phase-4 record, task 20)
should receive the direct-taskdep; because the code compares the remembered
candidate TASK's phase (here 0) against the new record's dependency phase,
the direct-taskdep instead names task 10, the holder of the phase-5 record. -/
theorem claim3_counterexample :
    Msg.directTaskdep c3Rdep.origin 10 c3Rdep.task ∈
      sentMsgs c3State (handleOneRemoteDep c3State c3Rdep) ∧
    Msg.directTaskdep c3Rdep.origin 20 c3Rdep.task ∉
      sentMsgs c3State (handleOneRemoteDep c3State c3Rdep) ∧
    remoteMatch c3Rdep c3ElemLo = true ∧
    remoteMatch c3Rdep c3ElemHi = true ∧
    isActiveTask (c3State.tasks 10) = true ∧
    isActiveTask (c3State.tasks 20) = true ∧
    c3Rdep.taskdep.phase ≤ c3ElemLo.taskdep.phase ∧
    c3ElemLo.taskdep.phase < c3ElemHi.taskdep.phase ∧
    c3ElemLo.task = 20 ∧ c3ElemHi.task = 10 := by
  decide

/-- Claim C3 (amended): the candidate is selected by comparing the remembered
candidate TASK's phase against each newly seen record's dependency phase; on
a phase-descending bucket whose matching records are all active and whose
record phases agree with their tasks' phases, the remembered candidate is a
task holding a matching output record with phase at or after the remote
record's phase and with the lowest such dependency phase; the direct-taskdep
is sent to the origin naming it, its `unresolved_remote_deps` counter is
incremented, and exactly on the 0 to 1 transition it is prepended to
`remote_blocked_tasks`. -/
theorem claim3_theorem (s : RtState) (rdep : DepElem)
    (tbl : Nat → List DepElem)
    (htbl : s.localDeps = some tbl)
    (hact : ∀ e ∈ tbl (hashGptr rdep.taskdep.gptr), remoteMatch rdep e = true →
      isActiveTask (s.tasks e.task) = true)
    (hph : ∀ e ∈ tbl (hashGptr rdep.taskdep.gptr),
      (s.tasks e.task).phase = e.taskdep.phase)
    (hsort : (tbl (hashGptr rdep.taskdep.gptr)).Pairwise
      (fun a b => b.taskdep.phase ≤ a.taskdep.phase))
    (hex : ∃ e ∈ tbl (hashGptr rdep.taskdep.gptr), remoteMatch rdep e = true ∧
      rdep.taskdep.phase ≤ e.taskdep.phase) :
    ∃ d,
      (∃ e ∈ tbl (hashGptr rdep.taskdep.gptr), remoteMatch rdep e = true ∧
        rdep.taskdep.phase ≤ e.taskdep.phase ∧ e.task = d) ∧
      (∀ e ∈ tbl (hashGptr rdep.taskdep.gptr), remoteMatch rdep e = true →
        rdep.taskdep.phase ≤ e.taskdep.phase →
        (s.tasks d).phase ≤ e.taskdep.phase) ∧
      Msg.directTaskdep rdep.origin d rdep.task ∈
        sentMsgs s (handleOneRemoteDep s rdep) ∧
      ((handleOneRemoteDep s rdep).tasks d).unresolvedRemoteDeps =
        (s.tasks d).unresolvedRemoteDeps + 1 ∧
      ((s.tasks d).unresolvedRemoteDeps = 0 →
        (handleOneRemoteDep s rdep).remoteBlocked = d :: s.remoteBlocked) ∧
      ((s.tasks d).unresolvedRemoteDeps ≠ 0 →
        (handleOneRemoteDep s rdep).remoteBlocked = s.remoteBlocked) := by
  obtain ⟨P1, P2, P3, P4⟩ :=
    deferredRemoteScan_ddc s.tasks rdep (tbl (hashGptr rdep.taskdep.gptr)) none
      hact hph hsort
  have hscan2 : (scanOf s rdep).2 =
      (deferredRemoteScan s.tasks rdep (tbl (hashGptr rdep.taskdep.gptr)) none).2 := by
    simp [scanOf, htbl]
  rcases hd : (deferredRemoteScan s.tasks rdep
      (tbl (hashGptr rdep.taskdep.gptr)) none).2 with _ | d
  · obtain ⟨-, hall⟩ := P2 hd
    obtain ⟨e, he, hme, hgee⟩ := hex
    exact absurd (hall e he hme) (not_lt.mpr hgee)
  · have hsd : (scanOf s rdep).2 = some d := by rw [hscan2, hd]
    obtain ⟨hmsg, hctr, hblk0, hblk1⟩ := handleOne_ddc_effects s rdep d hsd
    refine ⟨d, ?_, ?_, hmsg, hctr, hblk0, hblk1⟩
    · rcases P1 d hd with h1 | h1
      · exact absurd h1 (by simp)
      · exact h1
    · exact fun e he hme hge => P3 d hd e he hme hge

/-- Witness for claim C3: a single active matching writer record of phase 5
(whose task also has phase 5) against a remote record of phase 4; the
direct-taskdep names its task, the counter goes 0 to 1, and the task enters
`remote_blocked_tasks`. -/
theorem claim3_witness :
    Msg.directTaskdep c3Rdep.origin 10 c3Rdep.task ∈
      sentMsgs c3wState (handleOneRemoteDep c3wState c3Rdep) ∧
    ((handleOneRemoteDep c3wState c3Rdep).tasks 10).unresolvedRemoteDeps = 1 ∧
    (handleOneRemoteDep c3wState c3Rdep).remoteBlocked = [10] := by
  obtain ⟨d, ⟨e, he, -, -, het⟩, -, hmsg, hctr, hblk0, -⟩ :=
    claim3_theorem c3wState c3Rdep
      (fun sl => if sl = 1 then [c3ElemHi] else []) rfl
      (by decide) (by decide) (by decide) (by decide)
  have hed : e = c3ElemHi := by
    have : e ∈ [c3ElemHi] := he
    simpa using this
  have hd10 : d = 10 := by rw [hed] at het; exact het.symm
  subst hd10
  refine ⟨hmsg, ?_, ?_⟩
  · rw [hctr]; decide
  · rw [hblk0 (by decide)]; rfl

/-! ## Claim C4 -/

/-- Claim C4 fails as stated: two dependencies with equal absolute address
but different segments (0 and 1023, which also share hash slot 0) are treated
as the same location by `DEP_ADDR_EQ` and matched by the local matcher: the
new task's counter is incremented and it is prepended to the record task's
successors. -/
theorem claim4_counterexample :
    depAddrEq c4Elem.taskdep c4Dep = true ∧
    c4Elem.taskdep.gptr.segid ≠ c4Dep.gptr.segid ∧
    hashGptr c4Elem.taskdep.gptr = hashGptr c4Dep.gptr ∧
    ((matchLocalDatadep c4Dep 2 c4State).tasks 2).unresolvedDeps = 1 ∧
    ((matchLocalDatadep c4Dep 2 c4State).tasks 1).successor = [2] := by
  decide

/-- Claim C4 (amended): within a bucket, a record is matched against a new
dependency exactly when their absolute addresses are equal; the unit and
segment fields play no role in the comparison (they only enter the hash-slot
computation), so records differing in unit or segment are still matched as
the same location whenever the absolute addresses agree. -/
theorem claim4_theorem (s : RtState) (e : DepElem) (dep : TaskDep)
    (taskId : Nat)
    (htbl : s.localDeps =
      some (fun sl => if sl = hashGptr dep.gptr then [e] else []))
    (hne : e.task ≠ taskId)
    (hact : isActiveTask (s.tasks e.task) = true)
    (hnotin : (s.tasks e.task).successor.contains taskId = false)
    (htype : (isOutDep dep ||
      (dep.type == DepType.inDep && isOutDep e.taskdep)) = true) :
    (((matchLocalDatadep dep taskId s).tasks taskId).unresolvedDeps =
        (s.tasks taskId).unresolvedDeps + 1 ∧
      ((matchLocalDatadep dep taskId s).tasks e.task).successor =
        taskId :: (s.tasks e.task).successor) ↔
      depAddr e.taskdep = depAddr dep := by
  have htasks : (matchLocalDatadep dep taskId s).tasks =
      (matchLocalScan dep taskId [e] s.tasks).2 := by
    simp [matchLocalDatadep, htbl]
  constructor
  · rintro ⟨h1, -⟩
    by_contra haddr
    have haf : depAddrEq e.taskdep dep = false := by
      simp [depAddrEq]
      exact haddr
    have hscan : matchLocalScan dep taskId [e] s.tasks = ([e], s.tasks) := by
      simp [matchLocalScan, haf]
    rw [htasks, hscan] at h1
    simp at h1
  · intro haddr
    have hat : depAddrEq e.taskdep dep = true := by
      simp [depAddrEq]
      exact haddr
    have hnotin' : taskId ∉ (s.tasks e.task).successor := by
      simpa using hnotin
    have hscan2 : (matchLocalScan dep taskId [e] s.tasks).2 =
        updT (updT s.tasks taskId
            { s.tasks taskId with
              unresolvedDeps := (s.tasks taskId).unresolvedDeps + 1 })
          e.task
          { s.tasks e.task with
            successor := taskId :: (s.tasks e.task).successor } := by
      cases ho : isOutDep e.taskdep
      · have hod : isOutDep dep = true := by
          rw [ho] at htype
          simpa using htype
        simp [matchLocalScan, hat, hne, hod, hact, hnotin', ho]
      · simp [matchLocalScan, hat, hne, hact, hnotin', ho]
        intro h1 h2
        rw [ho, h1] at htype
        simp [h2] at htype
    rw [htasks, hscan2]
    constructor
    · rw [updT_ne _ _ _ (Ne.symm hne), updT_self]
    · rw [updT_self]

/-- Witness for claim C4: the segment-0 record and the segment-1023
dependency share only the absolute address, yet are matched. -/
theorem claim4_witness :
    depAddr c4Elem.taskdep = depAddr c4Dep ∧
    c4Elem.taskdep.gptr.segid ≠ c4Dep.gptr.segid ∧
    ((matchLocalDatadep c4Dep 2 c4State).tasks 2).unresolvedDeps =
      (c4State.tasks 2).unresolvedDeps + 1 ∧
    ((matchLocalDatadep c4Dep 2 c4State).tasks c4Elem.task).successor =
      2 :: (c4State.tasks c4Elem.task).successor := by
  obtain ⟨h1, h2⟩ :=
    (claim4_theorem c4State c4Elem c4Dep 2 rfl (by decide) (by decide)
      (by decide) (by decide)).mpr (by decide)
  exact ⟨by decide, by decide, h1, h2⟩

/-! ## Claim C5 -/

/-- Claim C5 fails as stated: releasing task 0 pops its successor task 1,
which holds one local and one remote unresolved dependency; the code reads
(`DART_FETCH32`) but does not decrement the remote counter, which therefore
stays at 1, and the successor is not enqueued. -/
theorem claim5_counterexample :
    (c5State.tasks 1).unresolvedDeps = 1 ∧
    (c5State.tasks 1).unresolvedRemoteDeps = 1 ∧
    ((releaseLocalTask 0 c5State).tasks 1).unresolvedDeps = 0 ∧
    ((releaseLocalTask 0 c5State).tasks 1).unresolvedRemoteDeps = 1 ∧
    (releaseLocalTask 0 c5State).enqueued = [] := by
  decide

/-- The successor-release loop of `dart_tasking_datadeps_release_local_task`
on a duplicate-free list of successors with non-negative counters: it never
aborts, decrements each successor's local counter exactly once, leaves every
remote counter untouched, leaves tasks outside the list unchanged, and
appends to the runnable queue exactly the successors passing the enqueue
test. -/
theorem releaseSuccessors_run :
    ∀ (l : List Nat) (s : RtState),
      l.Nodup →
      (∀ x ∈ l, 1 ≤ (s.tasks x).unresolvedDeps ∧
        0 ≤ (s.tasks x).unresolvedRemoteDeps) →
      (releaseSuccessors l s).aborted = s.aborted ∧
      (∀ x ∈ l,
        ((releaseSuccessors l s).tasks x).unresolvedDeps =
          (s.tasks x).unresolvedDeps - 1 ∧
        ((releaseSuccessors l s).tasks x).unresolvedRemoteDeps =
          (s.tasks x).unresolvedRemoteDeps) ∧
      (∀ t, t ∉ l → (releaseSuccessors l s).tasks t = s.tasks t) ∧
      (releaseSuccessors l s).enqueued =
        s.enqueued ++ l.filter (enqCond s) := by
  intro l
  induction l with
  | nil =>
    intro s _ _
    exact ⟨rfl, by simp, fun t _ => rfl, by simp [releaseSuccessors]⟩
  | cons x rest ih =>
    intro s hnd hpos
    obtain ⟨hx1, hx2⟩ := hpos x (List.mem_cons_self x rest)
    have hxr : x ∉ rest := (List.nodup_cons.mp hnd).1
    have hnd' : rest.Nodup := (List.nodup_cons.mp hnd).2
    have hnoab : ¬ ((s.tasks x).unresolvedDeps - 1 < 0 ∨
        (s.tasks x).unresolvedRemoteDeps < 0) := by omega
    by_cases henq : ((s.tasks x).state == TaskState.created &&
        ((s.tasks x).unresolvedDeps - 1 == 0 &&
          (s.tasks x).unresolvedRemoteDeps == 0)) = true
    · have hstep : releaseSuccessors (x :: rest) s =
          releaseSuccessors rest
            { s with
              tasks := updT s.tasks x
                { s.tasks x with
                  unresolvedDeps := (s.tasks x).unresolvedDeps - 1 },
              enqueued := s.enqueued ++ [x] } := by
        simp only [releaseSuccessors]
        rw [if_neg hnoab, if_pos henq]
      rw [hstep]
      obtain ⟨ihA, ihB, ihC, ihD⟩ := ih
        { s with
          tasks := updT s.tasks x
            { s.tasks x with
              unresolvedDeps := (s.tasks x).unresolvedDeps - 1 },
          enqueued := s.enqueued ++ [x] }
        hnd'
        (by
          intro y hy
          have hyx : y ≠ x := fun h => hxr (h ▸ hy)
          simpa [updT_ne _ _ _ hyx] using hpos y (List.mem_cons_of_mem x hy))
      refine ⟨ihA, ?_, ?_, ?_⟩
      · intro y hy
        by_cases hyx : y = x
        · rw [hyx, ihC x hxr]
          exact ⟨by simp [updT], by simp [updT]⟩
        · obtain ⟨hb1, hb2⟩ := ihB y
            (by
              rcases List.mem_cons.mp hy with h | h
              · exact absurd h hyx
              · exact h)
          rw [hb1, hb2]
          exact ⟨by simp [updT, hyx], by simp [updT, hyx]⟩
      · intro t ht
        have htx : t ≠ x := fun h => ht (h ▸ List.mem_cons_self x rest)
        have htr : t ∉ rest := fun h => ht (List.mem_cons_of_mem x h)
        rw [ihC t htr]
        simp [updT, htx]
      · rw [ihD]
        have henq' : enqCond s x = true := henq
        have hfc : rest.filter (enqCond
            { s with
              tasks := updT s.tasks x
                { s.tasks x with
                  unresolvedDeps := (s.tasks x).unresolvedDeps - 1 },
              enqueued := s.enqueued ++ [x] }) = rest.filter (enqCond s) := by
          apply List.filter_congr
          intro y hy
          have hyx : y ≠ x := fun h => hxr (h ▸ hy)
          simp [enqCond, updT_ne _ _ _ hyx]
        rw [hfc, List.filter_cons]
        simp [henq']
    · have hstep : releaseSuccessors (x :: rest) s =
          releaseSuccessors rest
            { s with
              tasks := updT s.tasks x
                { s.tasks x with
                  unresolvedDeps := (s.tasks x).unresolvedDeps - 1 } } := by
        simp only [releaseSuccessors]
        rw [if_neg hnoab, if_neg henq]
      rw [hstep]
      obtain ⟨ihA, ihB, ihC, ihD⟩ := ih
        { s with
          tasks := updT s.tasks x
            { s.tasks x with
              unresolvedDeps := (s.tasks x).unresolvedDeps - 1 } }
        hnd'
        (by
          intro y hy
          have hyx : y ≠ x := fun h => hxr (h ▸ hy)
          simpa [updT_ne _ _ _ hyx] using hpos y (List.mem_cons_of_mem x hy))
      refine ⟨ihA, ?_, ?_, ?_⟩
      · intro y hy
        by_cases hyx : y = x
        · rw [hyx, ihC x hxr]
          exact ⟨by simp [updT], by simp [updT]⟩
        · obtain ⟨hb1, hb2⟩ := ihB y
            (by
              rcases List.mem_cons.mp hy with h | h
              · exact absurd h hyx
              · exact h)
          rw [hb1, hb2]
          exact ⟨by simp [updT, hyx], by simp [updT, hyx]⟩
      · intro t ht
        have htx : t ≠ x := fun h => ht (h ▸ List.mem_cons_self x rest)
        have htr : t ∉ rest := fun h => ht (List.mem_cons_of_mem x h)
        rw [ihC t htr]
        simp [updT, htx]
      · rw [ihD]
        have henq' : enqCond s x = false := by
          cases h : enqCond s x
          · rfl
          · exact absurd h henq
        have hfc : rest.filter (enqCond
            { s with
              tasks := updT s.tasks x
                { s.tasks x with
                  unresolvedDeps := (s.tasks x).unresolvedDeps - 1 } }) =
            rest.filter (enqCond s) := by
          apply List.filter_congr
          intro y hy
          have hyx : y ≠ x := fun h => hxr (h ▸ hy)
          simp [enqCond, updT_ne _ _ _ hyx]
        rw [hfc, List.filter_cons]
        simp [henq']

/-- Claim C5 (amended): for each popped successor `S`, `unresolved_local` is
decremented and `unresolved_remote` is only READ (`DART_FETCH32`), not
decremented; `S` is enqueued to the worker pool exactly when the decremented
local counter and the read remote counter are both zero and `S` is still in
state `CREATED`; otherwise it is skipped. -/
theorem claim5_theorem (s : RtState) (taskId : Nat)
    (hnodup : (s.tasks taskId).successor.Nodup)
    (hself : taskId ∉ (s.tasks taskId).successor)
    (hpos : ∀ x ∈ (s.tasks taskId).successor,
      1 ≤ (s.tasks x).unresolvedDeps ∧ 0 ≤ (s.tasks x).unresolvedRemoteDeps) :
    (releaseLocalTask taskId s).aborted = s.aborted ∧
    (releaseLocalTask taskId s).enqueued =
      s.enqueued ++ (s.tasks taskId).successor.filter (enqCond s) ∧
    ∀ x ∈ (s.tasks taskId).successor,
      ((releaseLocalTask taskId s).tasks x).unresolvedDeps =
        (s.tasks x).unresolvedDeps - 1 ∧
      ((releaseLocalTask taskId s).tasks x).unresolvedRemoteDeps =
        (s.tasks x).unresolvedRemoteDeps ∧
      (x ∈ newlyEnqueued s (releaseLocalTask taskId s) ↔
        (s.tasks x).unresolvedDeps = 1 ∧ (s.tasks x).unresolvedRemoteDeps = 0 ∧
          (s.tasks x).state = TaskState.created) := by
  obtain ⟨S1, heq, hS1t, hS1e, hS1a⟩ :
      ∃ S1 : RtState,
        releaseLocalTask taskId s =
          releaseSuccessors (s.tasks taskId).successor S1 ∧
        (∀ x, x ≠ taskId → S1.tasks x = s.tasks x) ∧
        S1.enqueued = s.enqueued ∧
        S1.aborted = s.aborted := by
    by_cases hc : ((s.tasks taskId).state == TaskState.cancelled) = true
    · refine
        ⟨{ s with
           tasks := updT s.tasks taskId
             ({ s.tasks taskId with successor := [] }) },
         ?_, ?_, rfl, rfl⟩
      · simp [releaseLocalTask, hc]
      · intro x hx
        simp [updT, hx]
    · refine
        ⟨{ s with
           msgs := s.msgs ++ (s.tasks taskId).remoteSuccessor.map
             (fun rs => Msg.remoteRelease rs.origin rs.task rs.taskdep),
           freelist := (s.tasks taskId).remoteSuccessor.foldl
             (fun fl _ => zeroDepElem :: fl) s.freelist,
           tasks := updT (updT s.tasks taskId
               ({ s.tasks taskId with remoteSuccessor := [] })) taskId
             ({ (updT s.tasks taskId
                 ({ s.tasks taskId with remoteSuccessor := [] })) taskId with
                successor := [] }) },
         ?_, ?_, rfl, rfl⟩
      · simp [releaseLocalTask, releaseRemoteDependencies, hc, updT]
      · intro x hx
        simp [updT, hx]
  have hS1tl : ∀ x ∈ (s.tasks taskId).successor, S1.tasks x = s.tasks x :=
    fun x hx => hS1t x (fun h => hself (h ▸ hx))
  obtain ⟨RA, RB, RC, RD⟩ := releaseSuccessors_run (s.tasks taskId).successor S1
    hnodup (fun x hx => by rw [hS1tl x hx]; exact hpos x hx)
  have hfilter : (s.tasks taskId).successor.filter (enqCond S1) =
      (s.tasks taskId).successor.filter (enqCond s) := by
    apply List.filter_congr
    intro y hy
    simp [enqCond, hS1tl y hy]
  rw [heq]
  refine ⟨by rw [RA, hS1a], by rw [RD, hS1e, hfilter], ?_⟩
  intro x hx
  obtain ⟨hb1, hb2⟩ := RB x hx
  refine ⟨by rw [hb1, hS1tl x hx], by rw [hb2, hS1tl x hx], ?_⟩
  have hnew : newlyEnqueued s (releaseSuccessors (s.tasks taskId).successor S1) =
      (s.tasks taskId).successor.filter (enqCond s) := by
    rw [newlyEnqueued, RD, hS1e, List.drop_left, hfilter]
  rw [hnew, List.mem_filter]
  constructor
  · rintro ⟨-, hcond⟩
    simp [enqCond] at hcond
    obtain ⟨h1, h2, h3⟩ := hcond
    exact ⟨by omega, h3, h1⟩
  · rintro ⟨h1, h2, h3⟩
    refine ⟨hx, ?_⟩
    simp [enqCond]
    exact ⟨h3, by omega, h2⟩

/-- Witness for claim C5: releasing task 0 with successors 1 (one local, no
remote dependency: enqueued) and 2 (two local dependencies: skipped). -/
theorem claim5_witness :
    ((releaseLocalTask 0 c5wState).tasks 1).unresolvedDeps = 0 ∧
    ((releaseLocalTask 0 c5wState).tasks 1).unresolvedRemoteDeps = 0 ∧
    1 ∈ newlyEnqueued c5wState (releaseLocalTask 0 c5wState) ∧
    ((releaseLocalTask 0 c5wState).tasks 2).unresolvedDeps = 1 ∧
    2 ∉ newlyEnqueued c5wState (releaseLocalTask 0 c5wState) := by
  obtain ⟨-, -, H3⟩ := claim5_theorem c5wState 0 (by decide) (by decide) (by decide)
  obtain ⟨h11, h12, h13⟩ := H3 1 (by decide)
  obtain ⟨h21, -, h23⟩ := H3 2 (by decide)
  refine ⟨?_, ?_, ?_, ?_, ?_⟩
  · rw [h11]; decide
  · rw [h12]; decide
  · exact h13.mpr (by decide)
  · rw [h21]; decide
  · intro hmem
    exact absurd (h23.mp hmem).1 (by decide)

/-! ## Claim C6 -/

/-- Claim C6 fails as stated: the bucket holds an `IN` record of the new task
itself (task 2) ahead of the active writer record (task 1); the walk stops at
the self-record without reaching the writer, so the new task's counter stays
at 0 and it is not prepended to the writer's successors, although the claim's
conditions for the writer record hold. -/
theorem claim6_counterexample :
    ((matchLocalDatadep c6Dep 2 c6State).tasks 2).unresolvedDeps = 0 ∧
    ((matchLocalDatadep c6Dep 2 c6State).tasks 1).successor = [] ∧
    depAddrEq c6WriterElem.taskdep c6Dep = true ∧
    isOutDep c6WriterElem.taskdep = true ∧
    isActiveTask (c6State.tasks 1) = true ∧
    c6Dep.type = DepType.inDep ∧
    c6SelfElem.task = 2 ∧ c6WriterElem.task = 1 := by
  decide

/-- The bucket walk of the local matcher over a prefix of non-writer records
followed by the first matching writer: the bucket is returned unchanged, the
new task's local counter is incremented once per eligible record up to and
including the writer, each eligible record's task gains the new task at the
head of its successors, and tasks not referenced are untouched. -/
theorem matchLocalScan_run (dep : TaskDep) (taskId : Nat) (w : DepElem)
    (rest : List DepElem)
    (hwm : depAddrEq w.taskdep dep = true)
    (hwout : isOutDep w.taskdep = true) :
    ∀ (pre : List DepElem) (tasks : Nat → DartTask),
      (∀ e ∈ pre, ¬(depAddrEq e.taskdep dep = true ∧ isOutDep e.taskdep = true)) →
      (∀ e ∈ pre ++ [w], e.task ≠ taskId) →
      ((pre ++ [w]).map (fun e => e.task)).Nodup →
      (∀ e ∈ pre ++ [w], taskId ∉ (tasks e.task).successor) →
      (matchLocalScan dep taskId (pre ++ w :: rest) tasks).1 = pre ++ w :: rest ∧
      ((matchLocalScan dep taskId (pre ++ w :: rest) tasks).2 taskId).unresolvedDeps =
        (tasks taskId).unresolvedDeps +
          ((pre ++ [w]).filter (localElig dep tasks)).length ∧
      (∀ e ∈ pre ++ [w], localElig dep tasks e = true →
        ((matchLocalScan dep taskId (pre ++ w :: rest) tasks).2 e.task).successor =
          taskId :: (tasks e.task).successor) ∧
      (∀ t, t ≠ taskId → (∀ e ∈ pre ++ [w], e.task ≠ t) →
        (matchLocalScan dep taskId (pre ++ w :: rest) tasks).2 t = tasks t) := by
  intro pre
  induction pre with
  | nil =>
    intro tasks _ hne hnodup hnotin
    have hwne : w.task ≠ taskId := hne w (by simp)
    have hwcont : ((tasks w.task).successor.contains taskId) = false := by
      simpa using hnotin w (by simp)
    by_cases htype : (isOutDep dep ||
        (dep.type == DepType.inDep && isOutDep w.taskdep)) = true
    · by_cases hact : isActiveTask (tasks w.task) = true
      · have helig : localElig dep tasks w = true := by
          simp [localElig, hwm, htype, hact]
        have htypeP : isOutDep dep = true ∨ dep.type = DepType.inDep := by
          simpa [hwout] using htype
        have hwmem : taskId ∉ (tasks w.task).successor := hnotin w (by simp)
        have hscan : matchLocalScan dep taskId ([] ++ w :: rest) tasks =
            (w :: rest,
             updT (updT tasks taskId
                 ({ tasks taskId with
                    unresolvedDeps := (tasks taskId).unresolvedDeps + 1 }))
               w.task
               ({ tasks w.task with
                  successor := taskId :: (tasks w.task).successor })) := by
          simp [matchLocalScan, hwm, hwne, hact, hwout]
          rw [if_pos htypeP, if_neg hwmem]
        have hscan1 : (matchLocalScan dep taskId ([] ++ w :: rest) tasks).1 =
            w :: rest := by rw [hscan]
        have hscan2 : (matchLocalScan dep taskId ([] ++ w :: rest) tasks).2 =
            updT (updT tasks taskId
                ({ tasks taskId with
                   unresolvedDeps := (tasks taskId).unresolvedDeps + 1 }))
              w.task
              ({ tasks w.task with
                 successor := taskId :: (tasks w.task).successor }) := by
          rw [hscan]
        refine ⟨by rw [hscan1]; rfl, ?_, ?_, ?_⟩
        · rw [hscan2, updT_ne _ _ _ (Ne.symm hwne), updT_self]
          simp [helig]
        · intro e he helig'
          have hew : e = w := by simpa using he
          rw [hew, hscan2, updT_self]
        · intro t ht hnt
          have htw : t ≠ w.task := fun h => hnt w (by simp) h.symm
          rw [hscan2, updT_ne _ _ _ htw, updT_ne _ _ _ ht]
      · have hact' : isActiveTask (tasks w.task) = false := by
          cases h : isActiveTask (tasks w.task)
          · rfl
          · exact absurd h hact
        have helig : localElig dep tasks w = false := by
          simp [localElig, hact']
        have hscan : matchLocalScan dep taskId ([] ++ w :: rest) tasks =
            (w :: rest, tasks) := by
          simp [matchLocalScan, hwm, hwne, hact', hwout]
        have hscan1 : (matchLocalScan dep taskId ([] ++ w :: rest) tasks).1 =
            w :: rest := by rw [hscan]
        have hscan2 : (matchLocalScan dep taskId ([] ++ w :: rest) tasks).2 =
            tasks := by rw [hscan]
        refine ⟨by rw [hscan1]; rfl, by rw [hscan2]; simp [helig], ?_,
          fun t _ _ => by rw [hscan2]⟩
        intro e he helig'
        have hew : e = w := by simpa using he
        rw [hew, helig] at helig'
        exact absurd helig' (by simp)
    · have htype' : (isOutDep dep ||
          (dep.type == DepType.inDep && isOutDep w.taskdep)) = false := by
        cases h : (isOutDep dep || (dep.type == DepType.inDep && isOutDep w.taskdep))
        · rfl
        · exact absurd h htype
      have htypeN : ¬(isOutDep dep = true ∨ dep.type = DepType.inDep) := by
        simpa [hwout] using htype
      have helig : localElig dep tasks w = false := by
        simp [localElig, htype']
      have hscan : matchLocalScan dep taskId ([] ++ w :: rest) tasks =
          (w :: rest, tasks) := by
        simp [matchLocalScan, hwm, hwne, hwout]
        intro h
        exact absurd h htypeN
      have hscan1 : (matchLocalScan dep taskId ([] ++ w :: rest) tasks).1 =
          w :: rest := by rw [hscan]
      have hscan2 : (matchLocalScan dep taskId ([] ++ w :: rest) tasks).2 =
          tasks := by rw [hscan]
      refine ⟨by rw [hscan1]; rfl, by rw [hscan2]; simp [helig], ?_,
        fun t _ _ => by rw [hscan2]⟩
      intro e he helig'
      have hew : e = w := by simpa using he
      rw [hew, helig] at helig'
      exact absurd helig' (by simp)
  | cons p pre' ih =>
    intro tasks hpre hne hnodup hnotin
    have hp := hpre p (List.mem_cons_self p pre')
    have hpne : p.task ≠ taskId := hne p (by simp)
    have hpre2 : ∀ e ∈ pre', ¬(depAddrEq e.taskdep dep = true ∧
        isOutDep e.taskdep = true) :=
      fun e he => hpre e (List.mem_cons_of_mem p he)
    have hne' : ∀ e ∈ pre' ++ [w], e.task ≠ taskId :=
      fun e he => hne e (List.mem_cons_of_mem p he)
    have hnodup' : ((pre' ++ [w]).map (fun e => e.task)).Nodup := by
      have h := hnodup
      simp only [List.cons_append, List.map_cons, List.nodup_cons] at h
      exact h.2
    have hptnotin : p.task ∉ (pre' ++ [w]).map (fun e => e.task) := by
      have h := hnodup
      simp only [List.cons_append, List.map_cons, List.nodup_cons] at h
      exact h.1
    have hpother : ∀ e ∈ pre' ++ [w], e.task ≠ p.task := by
      intro e he h
      exact hptnotin (h ▸ List.mem_map_of_mem (fun e => e.task) he)
    have hnotin' : ∀ e ∈ pre' ++ [w], taskId ∉ (tasks e.task).successor :=
      fun e he => hnotin e (List.mem_cons_of_mem p he)
    by_cases hpm : depAddrEq p.taskdep dep = true
    · have hpout : isOutDep p.taskdep = false := by
        cases h : isOutDep p.taskdep
        · rfl
        · exact absurd ⟨hpm, h⟩ hp
      by_cases helig : localElig dep tasks p = true
      · have hty : (isOutDep dep ||
            (dep.type == DepType.inDep && isOutDep p.taskdep)) = true := by
          have h := helig
          simp only [localElig, Bool.and_eq_true] at h
          exact h.1.2
        have hac : isActiveTask (tasks p.task) = true := by
          have h := helig
          simp only [localElig, Bool.and_eq_true] at h
          exact h.2
        have hcont : ((tasks p.task).successor.contains taskId) = false := by
          simpa using hnotin p (List.mem_cons_self p (pre' ++ [w]))
        have htyD : isOutDep dep = true := by
          simpa [hpout] using hty
        have hpmem : taskId ∉ (tasks p.task).successor :=
          hnotin p (List.mem_cons_self p (pre' ++ [w]))
        set M1 : Nat → DartTask := updT (updT tasks taskId
            ({ tasks taskId with
               unresolvedDeps := (tasks taskId).unresolvedDeps + 1 }))
          p.task
          ({ tasks p.task with
             successor := taskId :: (tasks p.task).successor }) with hM1def
        have hstep : matchLocalScan dep taskId ((p :: pre') ++ w :: rest) tasks =
            (p :: (matchLocalScan dep taskId (pre' ++ w :: rest) M1).1,
             (matchLocalScan dep taskId (pre' ++ w :: rest) M1).2) := by
          rw [hM1def]
          simp [matchLocalScan, hpm, hpne, htyD, hac, hpout]
          rw [if_neg hpmem]
          exact ⟨rfl, rfl⟩
        have hstep1 : (matchLocalScan dep taskId
            ((p :: pre') ++ w :: rest) tasks).1 =
            p :: (matchLocalScan dep taskId (pre' ++ w :: rest) M1).1 := by
          rw [hstep]
        have hstep2 : (matchLocalScan dep taskId
            ((p :: pre') ++ w :: rest) tasks).2 =
            (matchLocalScan dep taskId (pre' ++ w :: rest) M1).2 := by
          rw [hstep]
        have hM1eq : ∀ e ∈ pre' ++ [w], M1 e.task = tasks e.task := by
          intro e he
          rw [hM1def, updT_ne _ _ _ (hpother e he), updT_ne _ _ _ (hne' e he)]
        obtain ⟨ih1, ih2, ih3, ih4⟩ := ih M1 hpre2 hne' hnodup'
          (fun e he => by rw [hM1eq e he]; exact hnotin' e he)
        have hfc : (pre' ++ [w]).filter (localElig dep M1) =
            (pre' ++ [w]).filter (localElig dep tasks) :=
          List.filter_congr (fun e he => by simp [localElig, hM1eq e he])
        have hM1ul : (M1 taskId).unresolvedDeps =
            (tasks taskId).unresolvedDeps + 1 := by
          rw [hM1def, updT_ne _ _ _ (Ne.symm hpne), updT_self]
        refine ⟨?_, ?_, ?_, ?_⟩
        · rw [hstep1, ih1]; rfl
        · rw [hstep2, ih2, hM1ul, hfc]
          have hfp : ((p :: pre') ++ [w]).filter (localElig dep tasks) =
              p :: (pre' ++ [w]).filter (localElig dep tasks) := by
            simp [List.filter_cons, helig]
          rw [hfp]
          simp only [List.length_cons]
          push_cast
          ring
        · intro e he helig'
          rcases List.mem_cons.mp he with hep | he'
          · rw [hep]
            rw [hstep2, ih4 p.task hpne hpother, hM1def, updT_self]
          · have helig2 : localElig dep M1 e = true := by
              simpa [localElig, hM1eq e he'] using helig'
            rw [hstep2, ih3 e he' helig2, hM1eq e he']
        · intro t ht hnt
          have htp : t ≠ p.task :=
            fun h => hnt p (List.mem_cons_self p (pre' ++ [w])) h.symm
          rw [hstep2, ih4 t ht (fun e he => hnt e (List.mem_cons_of_mem p he)),
            hM1def, updT_ne _ _ _ htp, updT_ne _ _ _ ht]
      · have heligp : localElig dep tasks p = false := by
          cases h : localElig dep tasks p
          · rfl
          · exact absurd h helig
        have hstep : matchLocalScan dep taskId ((p :: pre') ++ w :: rest) tasks =
            (p :: (matchLocalScan dep taskId (pre' ++ w :: rest) tasks).1,
             (matchLocalScan dep taskId (pre' ++ w :: rest) tasks).2) := by
          by_cases hty : (isOutDep dep ||
              (dep.type == DepType.inDep && isOutDep p.taskdep)) = true
          · have hac : isActiveTask (tasks p.task) = false := by
              cases h : isActiveTask (tasks p.task)
              · rfl
              · exact absurd (by simp [localElig, hpm, hty, h]) helig
            simp [matchLocalScan, hpm, hpne, hac, hpout]
          · have htyF : isOutDep dep = false := by
              simpa [hpout] using hty
            simp [matchLocalScan, hpm, hpne, htyF, hpout]
        have hstep1 : (matchLocalScan dep taskId
            ((p :: pre') ++ w :: rest) tasks).1 =
            p :: (matchLocalScan dep taskId (pre' ++ w :: rest) tasks).1 := by
          rw [hstep]
        have hstep2 : (matchLocalScan dep taskId
            ((p :: pre') ++ w :: rest) tasks).2 =
            (matchLocalScan dep taskId (pre' ++ w :: rest) tasks).2 := by
          rw [hstep]
        obtain ⟨ih1, ih2, ih3, ih4⟩ := ih tasks hpre2 hne' hnodup' hnotin'
        refine ⟨by rw [hstep1, ih1]; rfl, ?_, ?_, ?_⟩
        · rw [hstep2, ih2]
          have hfp : ((p :: pre') ++ [w]).filter (localElig dep tasks) =
              (pre' ++ [w]).filter (localElig dep tasks) := by
            simp [List.filter_cons, heligp]
          rw [hfp]
        · intro e he helig'
          rcases List.mem_cons.mp he with hep | he'
          · rw [hep, heligp] at helig'
            exact absurd helig' (by simp)
          · rw [hstep2]
            exact ih3 e he' helig'
        · intro t ht hnt
          rw [hstep2]
          exact ih4 t ht (fun e he => hnt e (List.mem_cons_of_mem p he))
    · have hpm' : depAddrEq p.taskdep dep = false := by
        cases h : depAddrEq p.taskdep dep
        · rfl
        · exact absurd h hpm
      have heligp : localElig dep tasks p = false := by
        simp [localElig, hpm']
      have hstep : matchLocalScan dep taskId ((p :: pre') ++ w :: rest) tasks =
          (p :: (matchLocalScan dep taskId (pre' ++ w :: rest) tasks).1,
           (matchLocalScan dep taskId (pre' ++ w :: rest) tasks).2) := by
        simp [matchLocalScan, hpm']
      have hstep1 : (matchLocalScan dep taskId
          ((p :: pre') ++ w :: rest) tasks).1 =
          p :: (matchLocalScan dep taskId (pre' ++ w :: rest) tasks).1 := by
        rw [hstep]
      have hstep2 : (matchLocalScan dep taskId
          ((p :: pre') ++ w :: rest) tasks).2 =
          (matchLocalScan dep taskId (pre' ++ w :: rest) tasks).2 := by
        rw [hstep]
      obtain ⟨ih1, ih2, ih3, ih4⟩ := ih tasks hpre2 hne' hnodup' hnotin'
      refine ⟨by rw [hstep1, ih1]; rfl, ?_, ?_, ?_⟩
      · rw [hstep2, ih2]
        have hfp : ((p :: pre') ++ [w]).filter (localElig dep tasks) =
            (pre' ++ [w]).filter (localElig dep tasks) := by
          simp [List.filter_cons, heligp]
        rw [hfp]
      · intro e he helig'
        rcases List.mem_cons.mp he with hep | he'
        · rw [hep, heligp] at helig'
          exact absurd helig' (by simp)
        · rw [hstep2]
          exact ih3 e he' helig'
      · intro t ht hnt
        rw [hstep2]
        exact ih4 t ht (fun e he => hnt e (List.mem_cons_of_mem p he))

/-- Claim C6, corrected: the local matcher's bucket walk stops at the first
matching `OUT`/`INOUT` record, but it also stops at any record of the new
task itself.  When the prefix before the first matching writer holds no
writer on the address (and, per the amendment, no record of the new task),
the bucket is returned unchanged, the new task's local counter grows by one
per eligible record up to and including the writer, and the new task is
prepended to each eligible record's task's successors. -/
theorem claim6_theorem (dep : TaskDep) (taskId : Nat) (s : RtState)
    (tbl : Nat → List DepElem) (pre : List DepElem) (w : DepElem)
    (rest : List DepElem)
    (htbl : s.localDeps = some tbl)
    (hbucket : tbl (hashGptr dep.gptr) = pre ++ w :: rest)
    (hwm : depAddrEq w.taskdep dep = true)
    (hwout : isOutDep w.taskdep = true)
    (hpre : ∀ e ∈ pre, ¬(depAddrEq e.taskdep dep = true ∧ isOutDep e.taskdep = true))
    (hne : ∀ e ∈ pre ++ [w], e.task ≠ taskId)
    (hnodup : ((pre ++ [w]).map (fun e => e.task)).Nodup)
    (hnotin : ∀ e ∈ pre ++ [w], taskId ∉ (s.tasks e.task).successor) :
    (∃ tbl2, (matchLocalDatadep dep taskId s).localDeps = some tbl2 ∧
        tbl2 (hashGptr dep.gptr) = pre ++ w :: rest) ∧
    ((matchLocalDatadep dep taskId s).tasks taskId).unresolvedDeps =
      (s.tasks taskId).unresolvedDeps +
        ((pre ++ [w]).filter (localElig dep s.tasks)).length ∧
    (∀ e ∈ pre ++ [w], localElig dep s.tasks e = true →
      ((matchLocalDatadep dep taskId s).tasks e.task).successor =
        taskId :: (s.tasks e.task).successor) := by
  obtain ⟨H1, H2, H3, -⟩ :=
    matchLocalScan_run dep taskId w rest hwm hwout pre s.tasks hpre hne hnodup
      hnotin
  have htasks : (matchLocalDatadep dep taskId s).tasks =
      (matchLocalScan dep taskId (pre ++ w :: rest) s.tasks).2 := by
    simp [matchLocalDatadep, htbl, hbucket]
  have hld : (matchLocalDatadep dep taskId s).localDeps =
      some (fun sl => if sl = hashGptr dep.gptr
        then (matchLocalScan dep taskId (pre ++ w :: rest) s.tasks).1
        else tbl sl) := by
    simp [matchLocalDatadep, htbl, hbucket]
  refine ⟨⟨_, hld, ?_⟩, ?_, ?_⟩
  · simp [H1]
  · rw [htasks]
    exact H2
  · intro e he helig
    rw [htasks]
    exact H3 e he helig

/-- Witness for claim C6: an input record of another task sits ahead of the
writer; both are eligible, so the new task's counter grows by two and it is
prepended to both tasks' successor lists, while the bucket stays as it was. -/
theorem claim6_witness :
    ((matchLocalDatadep c6wDep 2 c6wState).tasks 2).unresolvedDeps =
      (c6wState.tasks 2).unresolvedDeps + 2 ∧
    ((matchLocalDatadep c6wDep 2 c6wState).tasks 3).successor =
      2 :: (c6wState.tasks 3).successor ∧
    ((matchLocalDatadep c6wDep 2 c6wState).tasks 1).successor =
      2 :: (c6wState.tasks 1).successor ∧
    (∃ tbl2, (matchLocalDatadep c6wDep 2 c6wState).localDeps = some tbl2 ∧
        tbl2 (hashGptr c6wDep.gptr) = [c6wReader] ++ c6WriterElem :: []) := by
  obtain ⟨H1, H2, H3⟩ :=
    claim6_theorem c6wDep 2 c6wState _ [c6wReader] c6WriterElem [] rfl
      (by decide) (by decide) (by decide) (by decide) (by decide) (by decide)
      (by decide)
  refine ⟨?_, ?_, ?_, H1⟩
  · rw [H2]
    decide
  · exact H3 c6wReader (by decide) (by decide)
  · exact H3 c6WriterElem (by decide) (by decide)

/-! ## Claim C7 -/

theorem nextOutFold_cons (dep : TaskDep) (x : DepElem) (l : List DepElem)
    (acc : Option Nat) :
    nextOutFold dep (x :: l) acc =
      nextOutFold dep l
        (if x.taskdep.phase > dep.phase && depAddrEq x.taskdep dep &&
            isOutDep x.taskdep then some x.task else acc) := rfl

/-- Running the delayed scan over a prefix of records it walks past: the
prefix is reproduced in front of the remaining scan, whose accumulator is the
fold of the next-writer updates over the prefix. -/
theorem matchDelayedScan_append (myid : Nat) (dep : TaskDep) (taskId : Nat)
    (tasks : Nat → DartTask) :
    ∀ (pre l : List DepElem) (acc : Option Nat),
      (∀ x ∈ pre, delayedSkip dep taskId x) →
      matchDelayedScan myid dep taskId tasks (pre ++ l) acc =
        (pre ++ (matchDelayedScan myid dep taskId tasks l
            (nextOutFold dep pre acc)).1,
          (matchDelayedScan myid dep taskId tasks l
            (nextOutFold dep pre acc)).2) := by
  intro pre
  induction pre with
  | nil =>
    intro l acc _
    simp [nextOutFold]
  | cons x pre' ih =>
    intro l acc h
    have hskip := h x (List.mem_cons_self x pre')
    have hrest : ∀ y ∈ pre', delayedSkip dep taskId y :=
      fun y hy => h y (List.mem_cons_of_mem x hy)
    rw [nextOutFold_cons]
    show matchDelayedScan myid dep taskId tasks (x :: (pre' ++ l)) acc = _
    by_cases hp : x.taskdep.phase > dep.phase
    · have haccStep : (if x.taskdep.phase > dep.phase &&
          depAddrEq x.taskdep dep && isOutDep x.taskdep then some x.task
          else acc) =
          (if depAddrEq x.taskdep dep && isOutDep x.taskdep then some x.task
            else acc) := by
        simp [hp]
      rw [haccStep]
      simp only [matchDelayedScan]
      rw [if_pos hp]
      rw [ih l _ hrest]
      rfl
    · have haccStep : (if x.taskdep.phase > dep.phase &&
          depAddrEq x.taskdep dep && isOutDep x.taskdep then some x.task
          else acc) = acc := by
        simp [hp]
      rw [haccStep]
      simp only [matchDelayedScan]
      rw [if_neg hp]
      rcases hskip with hp' | haddr | ⟨haddr, hout, hne, -⟩
      · exact absurd hp' hp
      · rw [if_neg (by simp [haddr])]
        rw [ih l acc hrest]
        rfl
      · rw [if_pos haddr, if_neg hne, if_neg (by simp [hout])]
        rw [ih l acc hrest]
        rfl

/-- Claim C7, confirmed: when the delayed matcher reaches the writer record
`eW` of an earlier-or-equal phase after having recorded a next-writer `n`
among the skipped later-phase records, the next-writer's local counter is
incremented, the next-writer is prepended to the new task's successors, the
new record is NOT inserted into the table, and the run does not abort; the
matched writer itself additionally blocks the new task exactly when it is
still active. -/
theorem claim7_theorem (myid : Nat) (dep : TaskDep) (taskId n : Nat)
    (s : RtState) (tbl : Nat → List DepElem) (pre : List DepElem)
    (eW : DepElem) (rest : List DepElem)
    (htbl : s.localDeps = some tbl)
    (hbucket : tbl (hashGptr dep.gptr) = pre ++ eW :: rest)
    (hskip : ∀ x ∈ pre, delayedSkip dep taskId x)
    (hn : nextOutFold dep pre none = some n)
    (hWp : ¬ eW.taskdep.phase > dep.phase)
    (hWm : depAddrEq eW.taskdep dep = true)
    (hWout : isOutDep eW.taskdep = true)
    (hWne : eW.task ≠ taskId)
    (hnne : n ≠ taskId)
    (hnW : n ≠ eW.task)
    (hnact : isActiveTask (s.tasks n) = true) :
    (matchDelayedLocalDatadep myid dep taskId s).aborted = s.aborted ∧
    ((matchDelayedLocalDatadep myid dep taskId s).tasks n).unresolvedDeps =
      (s.tasks n).unresolvedDeps + 1 ∧
    ((matchDelayedLocalDatadep myid dep taskId s).tasks taskId).successor =
      n :: (s.tasks taskId).successor ∧
    (∃ tbl2, (matchDelayedLocalDatadep myid dep taskId s).localDeps =
        some tbl2 ∧ ∀ sl, tbl2 sl = tbl sl) ∧
    (isActiveTask (s.tasks eW.task) = true →
      ((matchDelayedLocalDatadep myid dep taskId s).tasks taskId).unresolvedDeps
          = (s.tasks taskId).unresolvedDeps + 1 ∧
      ((matchDelayedLocalDatadep myid dep taskId s).tasks eW.task).successor =
        taskId :: (s.tasks eW.task).successor) ∧
    (isActiveTask (s.tasks eW.task) = false →
      ((matchDelayedLocalDatadep myid dep taskId s).tasks taskId).unresolvedDeps
          = (s.tasks taskId).unresolvedDeps) := by
  have hsym1 : taskId ≠ eW.task := Ne.symm hWne
  have hsym2 : taskId ≠ n := Ne.symm hnne
  have hsym3 : eW.task ≠ n := Ne.symm hnW
  have hsplit :=
    matchDelayedScan_append myid dep taskId s.tasks pre (eW :: rest) none hskip
  rw [hn] at hsplit
  have hmd : matchDelayedLocalDatadep myid dep taskId s =
      { s with
        tasks :=
          (matchDelayedScan myid dep taskId s.tasks (pre ++ eW :: rest)
            none).2.1,
        localDeps := some (fun sl => if sl = hashGptr dep.gptr
          then (matchDelayedScan myid dep taskId s.tasks (pre ++ eW :: rest)
            none).1
          else tbl sl),
        aborted := s.aborted ||
          (matchDelayedScan myid dep taskId s.tasks (pre ++ eW :: rest)
            none).2.2 } := by
    simp [matchDelayedLocalDatadep, htbl, hbucket]
  have htasksmd : (matchDelayedLocalDatadep myid dep taskId s).tasks =
      (matchDelayedScan myid dep taskId s.tasks (eW :: rest) (some n)).2.1 := by
    rw [hmd]
    simp only [hsplit]
  have habmd : (matchDelayedLocalDatadep myid dep taskId s).aborted =
      (s.aborted ||
        (matchDelayedScan myid dep taskId s.tasks (eW :: rest)
          (some n)).2.2) := by
    rw [hmd]
    simp only [hsplit]
  have hldmd : (matchDelayedLocalDatadep myid dep taskId s).localDeps =
      some (fun sl => if sl = hashGptr dep.gptr
        then pre ++
          (matchDelayedScan myid dep taskId s.tasks (eW :: rest) (some n)).1
        else tbl sl) := by
    rw [hmd]
    simp only [hsplit]
  by_cases hact : isActiveTask (s.tasks eW.task) = true
  · have hF1 : (matchDelayedScan myid dep taskId s.tasks (eW :: rest)
        (some n)).1 = eW :: rest := by
      simp [matchDelayedScan, updT, hWp, hWm, hWout, hWne, hact, hnne, hnW,
        hsym1, hsym2, hsym3, hnact]
    have hF2 : (matchDelayedScan myid dep taskId s.tasks (eW :: rest)
        (some n)).2.2 = false := by
      simp [matchDelayedScan, updT, hWp, hWm, hWout, hWne, hact, hnne, hnW,
        hsym1, hsym2, hsym3, hnact]
    have hF3 : ((matchDelayedScan myid dep taskId s.tasks (eW :: rest)
        (some n)).2.1 n).unresolvedDeps = (s.tasks n).unresolvedDeps + 1 := by
      simp [matchDelayedScan, updT, hWp, hWm, hWout, hWne, hact, hnne, hnW,
        hsym1, hsym2, hsym3, hnact]
    have hF4 : ((matchDelayedScan myid dep taskId s.tasks (eW :: rest)
        (some n)).2.1 taskId).successor = n :: (s.tasks taskId).successor := by
      simp [matchDelayedScan, updT, hWp, hWm, hWout, hWne, hact, hnne, hnW,
        hsym1, hsym2, hsym3, hnact]
    have hF5 : ((matchDelayedScan myid dep taskId s.tasks (eW :: rest)
        (some n)).2.1 taskId).unresolvedDeps =
        (s.tasks taskId).unresolvedDeps + 1 := by
      simp [matchDelayedScan, updT, hWp, hWm, hWout, hWne, hact, hnne, hnW,
        hsym1, hsym2, hsym3, hnact]
    have hF6 : ((matchDelayedScan myid dep taskId s.tasks (eW :: rest)
        (some n)).2.1 eW.task).successor =
        taskId :: (s.tasks eW.task).successor := by
      simp [matchDelayedScan, updT, hWp, hWm, hWout, hWne, hact, hnne, hnW,
        hsym1, hsym2, hsym3, hnact]
    refine ⟨?_, ?_, ?_, ?_, ?_, ?_⟩
    · rw [habmd, hF2, Bool.or_false]
    · rw [htasksmd]
      exact hF3
    · rw [htasksmd]
      exact hF4
    · refine ⟨_, hldmd, ?_⟩
      intro sl
      by_cases hsl : sl = hashGptr dep.gptr
      · simp only [if_pos hsl, hF1]
        rw [hsl, hbucket]
      · simp only [if_neg hsl]
    · intro _
      rw [htasksmd]
      exact ⟨hF5, hF6⟩
    · intro hF
      rw [hact] at hF
      cases hF
  · have hactF : isActiveTask (s.tasks eW.task) = false := by
      cases h : isActiveTask (s.tasks eW.task)
      · rfl
      · exact absurd h hact
    have hF1 : (matchDelayedScan myid dep taskId s.tasks (eW :: rest)
        (some n)).1 = eW :: rest := by
      simp [matchDelayedScan, updT, hWp, hWm, hWout, hWne, hactF, hnne, hnW,
        hsym1, hsym2, hsym3, hnact]
    have hF2 : (matchDelayedScan myid dep taskId s.tasks (eW :: rest)
        (some n)).2.2 = false := by
      simp [matchDelayedScan, updT, hWp, hWm, hWout, hWne, hactF, hnne, hnW,
        hsym1, hsym2, hsym3, hnact]
    have hF3 : ((matchDelayedScan myid dep taskId s.tasks (eW :: rest)
        (some n)).2.1 n).unresolvedDeps = (s.tasks n).unresolvedDeps + 1 := by
      simp [matchDelayedScan, updT, hWp, hWm, hWout, hWne, hactF, hnne, hnW,
        hsym1, hsym2, hsym3, hnact]
    have hF4 : ((matchDelayedScan myid dep taskId s.tasks (eW :: rest)
        (some n)).2.1 taskId).successor = n :: (s.tasks taskId).successor := by
      simp [matchDelayedScan, updT, hWp, hWm, hWout, hWne, hactF, hnne, hnW,
        hsym1, hsym2, hsym3, hnact]
    have hF5 : ((matchDelayedScan myid dep taskId s.tasks (eW :: rest)
        (some n)).2.1 taskId).unresolvedDeps =
        (s.tasks taskId).unresolvedDeps := by
      simp [matchDelayedScan, updT, hWp, hWm, hWout, hWne, hactF, hnne, hnW,
        hsym1, hsym2, hsym3, hnact]
    refine ⟨?_, ?_, ?_, ?_, ?_, ?_⟩
    · rw [habmd, hF2, Bool.or_false]
    · rw [htasksmd]
      exact hF3
    · rw [htasksmd]
      exact hF4
    · refine ⟨_, hldmd, ?_⟩
      intro sl
      by_cases hsl : sl = hashGptr dep.gptr
      · simp only [if_pos hsl, hF1]
        rw [hsl, hbucket]
      · simp only [if_neg hsl]
    · intro hT
      rw [hactF] at hT
      cases hT
    · intro _
      rw [htasksmd]
      exact hF5

/-- Witness for claim C7: the W1 phase-3 / W2 phase-5 / delayed reader
phase-4 scenario of the claim.  The reader (task 3) gains W2 (task 2) in its
successors, W2's counter counts the reader, the reader's counter counts W1
(task 1), W1 gains the reader in its successors, nothing aborts and the
bucket is left without a record of the reader. -/
theorem claim7_witness :
    ((matchDelayedLocalDatadep 0 c7Dep 3 c7State).tasks 2).unresolvedDeps =
      (c7State.tasks 2).unresolvedDeps + 1 ∧
    ((matchDelayedLocalDatadep 0 c7Dep 3 c7State).tasks 3).successor =
      2 :: (c7State.tasks 3).successor ∧
    ((matchDelayedLocalDatadep 0 c7Dep 3 c7State).tasks 3).unresolvedDeps =
      (c7State.tasks 3).unresolvedDeps + 1 ∧
    ((matchDelayedLocalDatadep 0 c7Dep 3 c7State).tasks 1).successor =
      3 :: (c7State.tasks 1).successor ∧
    (matchDelayedLocalDatadep 0 c7Dep 3 c7State).aborted = c7State.aborted ∧
    (∃ tbl2, (matchDelayedLocalDatadep 0 c7Dep 3 c7State).localDeps =
        some tbl2 ∧
      ∀ sl, tbl2 sl = if sl = 1 then [c7W2Elem, c7W1Elem] else []) := by
  obtain ⟨hab, hn2, hsucc3, htbl2, hactive, -⟩ :=
    claim7_theorem 0 c7Dep 3 2 c7State _ [c7W2Elem] c7W1Elem [] rfl (by decide)
      (fun x hx => by
        rw [List.mem_singleton] at hx
        subst hx
        exact Or.inl (by decide))
      (by decide) (by decide) (by decide) (by decide) (by decide) (by decide)
      (by decide) (by decide)
  obtain ⟨h5, h6⟩ := hactive (by decide)
  exact ⟨hn2, hsucc3, h5, h6, hab, htbl2⟩
